import Mathlib

/-!
# Verification of the get-helper result cache of `src/core/frontend/helpers/get.js`

This file gives a shallow embedding of the stale-while-revalidate result cache
implemented by `returnCacheAndStartRefetch` (lines 184-222 of
`src/core/frontend/helpers/get.js`) and of the surrounding exported `get`
helper (lines 110-182), and proves the specified properties about them.

Modelling choices, each traced to the source:

* JavaScript is single threaded, so a call to `returnCacheAndStartRefetch`
  runs atomically; asynchrony enters only through promise settlement.  A
  program run is therefore a list of events, each either a synchronous call
  of `returnCacheAndStartRefetch` or the settlement (fulfilment or
  rejection) of a previously created promise.
* Promises are identified by the order of their creation: every invocation
  of `controller[action](apiOptions)` creates a fresh promise id.  Result
  values and error values are abstracted as `Nat`.
* The module level object `cachedResults` is modelled as an association list
  from the keys the code actually uses.  The code looks entries up as
  `cachedResults[controllerName][stringApiOptions]` (lines 197, 212, 218),
  so the effective key is the pair (controllerName, second-level string);
  the initialisation on lines 192-194 writes the empty object `{}` to
  `cachedResults[controllerName][action]`, which in this model is an entry
  whose two fields are absent (`isFetching` falsy, `promise` undefined).
* `promise.then(cb)` with no rejection handler (lines 203-206 and 217-219)
  runs `cb` when the promise fulfils and does nothing when it rejects; the
  registered callbacks are kept in the state and executed by the settle
  event of their promise.
-/

/-- Outcome of a settled promise: results and errors abstracted as `Nat`. -/
inductive Outcome where
  | fulfilled (v : Nat)
  | rejected (e : Nat)
deriving DecidableEq

/-- The effective cache key used by the code: `cachedResults[first][second]`.
In every real call `first` is the controller name and `second` is
`JSON.stringify(apiOptions)` (line 196-197), but the initialisation on
line 192-194 also creates entries whose `second` component is the action. -/
structure CKey where
  first : String
  second : String
deriving DecidableEq

/-- A cache entry object.  A field that was never assigned reads as
`undefined`: falsy for `isFetching`, `none` for `promise`. -/
structure Entry where
  isFetching : Bool
  promise : Option Nat
deriving DecidableEq

/-- Which branch of `returnCacheAndStartRefetch` issued a fetch:
line 211 (no entry for the key yet) or line 202 (background refresh). -/
inductive FetchKind where
  | cold
  | refetch
deriving DecidableEq

/-- One invocation of `controller[action](apiOptions)`, with the fresh
promise id it produced and the arguments of the enclosing call. -/
structure Fetch where
  id : Nat
  controllerName : String
  action : String
  stringApiOptions : String
  kind : FetchKind
deriving DecidableEq

/-- A callback registered with `promise.then(...)` inside
`returnCacheAndStartRefetch`, waiting for promise `p` to settle.
`refetchDone` is lines 203-206 (store the new promise, clear the flag);
`coldDone` is lines 217-219 (clear the flag). -/
inductive Callback where
  | refetchDone (k : CKey) (p : Nat)
  | coldDone (k : CKey) (p : Nat)
deriving DecidableEq

/-- The promise a callback waits on. -/
def pid : Callback → Nat
  | Callback.refetchDone _ p => p
  | Callback.coldDone _ p => p

/-- The cache key whose entry a callback mutates. -/
def ckey : Callback → CKey
  | Callback.refetchDone k _ => k
  | Callback.coldDone k _ => k

/-- The branch a callback was registered by. -/
def kindOf : Callback → FetchKind
  | Callback.refetchDone _ _ => FetchKind.refetch
  | Callback.coldDone _ _ => FetchKind.cold

/-- The effective cache key a fetch was issued under. -/
def fkey (f : Fetch) : CKey := ⟨f.controllerName, f.stringApiOptions⟩

/-- The global state: the `cachedResults` map, the log of issued fetches,
the pending `then`-callbacks, the log of settled promises and the next
fresh promise id. -/
structure World where
  cachedResults : List (CKey × Entry)
  fetches : List Fetch
  conts : List Callback
  settled : List (Nat × Outcome)
  nextId : Nat
deriving DecidableEq

/-- Association list lookup (property access on the cache object). -/
def lookupE (l : List (CKey × Entry)) (k : CKey) : Option Entry :=
  match l with
  | [] => none
  | (k', e) :: t => if k' = k then some e else lookupE t k

/-- Association list assignment (property write on the cache object). -/
def setE (l : List (CKey × Entry)) (k : CKey) (e : Entry) : List (CKey × Entry) :=
  match l with
  | [] => [(k, e)]
  | (k', e') :: t => if k' = k then (k, e) :: t else (k', e') :: setE t k e

/-- In-place mutation of the entry object stored at a key, a no-op when the
key is absent (entry objects are never removed, so the callbacks of
lines 203-206 and 217-219 always find their entry). -/
def modifyE (l : List (CKey × Entry)) (k : CKey) (f : Entry → Entry) :
    List (CKey × Entry) :=
  match l with
  | [] => []
  | (k', e) :: t => if k' = k then (k', f e) :: t else (k', e) :: modifyE t k f

/-- Lines 189-194: ensure `cachedResults[controllerName]` and
`cachedResults[controllerName][action]` exist, creating `{}` (an entry with
both fields absent) at the second level when missing. -/
def initA (l : List (CKey × Entry)) (cn act : String) : List (CKey × Entry) :=
  match lookupE l ⟨cn, act⟩ with
  | some _ => l
  | none => setE l ⟨cn, act⟩ ⟨false, none⟩

/-- Lines 188-222 of `src/core/frontend/helpers/get.js`, run atomically.
Returns the new state and the value of the `return` statement: `some p` a
promise, `none` the value `undefined` (returned by line 208 when the entry
has no `promise` field). -/
def returnCacheAndStartRefetch (w : World) (controllerName action stringApiOptions : String) :
    World × Option Nat :=
  let cache0 := initA w.cachedResults controllerName action
  match lookupE cache0 ⟨controllerName, stringApiOptions⟩ with
  | some cache =>
    if cache.isFetching then
      ({ w with cachedResults := cache0 }, cache.promise)
    else
      ({ w with
          cachedResults := setE cache0 ⟨controllerName, stringApiOptions⟩
            ⟨true, cache.promise⟩,
          fetches := w.fetches ++
            [⟨w.nextId, controllerName, action, stringApiOptions, FetchKind.refetch⟩],
          conts := w.conts ++
            [Callback.refetchDone ⟨controllerName, stringApiOptions⟩ w.nextId],
          nextId := w.nextId + 1 },
        cache.promise)
  | none =>
    ({ w with
        cachedResults := setE cache0 ⟨controllerName, stringApiOptions⟩
          ⟨true, some w.nextId⟩,
        fetches := w.fetches ++
          [⟨w.nextId, controllerName, action, stringApiOptions, FetchKind.cold⟩],
        conts := w.conts ++
          [Callback.coldDone ⟨controllerName, stringApiOptions⟩ w.nextId],
        nextId := w.nextId + 1 },
      some w.nextId)

/-- Run one registered `then`-callback at settlement.  A `then` with only a
fulfilment handler does nothing on rejection.  On fulfilment,
`refetchDone` executes lines 204-205 and `coldDone` executes line 218. -/
def applyCont (o : Outcome) (l : List (CKey × Entry)) (c : Callback) :
    List (CKey × Entry) :=
  match o with
  | Outcome.rejected _ => l
  | Outcome.fulfilled _ =>
    match c with
    | Callback.refetchDone k p => modifyE l k (fun _ => ⟨false, some p⟩)
    | Callback.coldDone k _ => modifyE l k (fun e => ⟨false, e.promise⟩)

/-- Settlement of promise `p` with outcome `o`: every callback waiting on
`p` runs (in registration order) and is removed, and the outcome is
recorded. -/
def settleW (w : World) (p : Nat) (o : Outcome) : World :=
  { w with
      cachedResults :=
        (w.conts.filter (fun c => pid c == p)).foldl (applyCont o) w.cachedResults,
      conts := w.conts.filter (fun c => pid c != p),
      settled := w.settled ++ [(p, o)] }

/-- An atomic step of the event loop. -/
inductive Event where
  | call (controllerName action stringApiOptions : String)
  | settle (p : Nat) (o : Outcome)
deriving DecidableEq

/-- State transition of one event. -/
def stepW (w : World) : Event → World
  | Event.call cn act opts => (returnCacheAndStartRefetch w cn act opts).1
  | Event.settle p o => settleW w p o

/-- An event is admissible: only an already created, not yet settled
promise can settle (a promise settles exactly once). -/
def wfStep (w : World) : Event → Bool
  | Event.call _ _ _ => true
  | Event.settle p _ => decide (p < w.nextId) && w.settled.all (fun s => s.1 != p)

/-- A list of events is admissible from a state. -/
def wfFrom (w : World) : List Event → Bool
  | [] => true
  | e :: es => wfStep w e && wfFrom (stepW w e) es

/-- Run a list of events from a state. -/
def runFrom (w : World) (es : List Event) : World := es.foldl stepW w

/-- The initial state: empty cache, no fetches, no pending callbacks. -/
def initW : World := ⟨[], [], [], [], 0⟩

/-! ## Association list lemmas -/

theorem lookupE_setE (l : List (CKey × Entry)) (k k' : CKey) (e : Entry) :
    lookupE (setE l k e) k' = if k = k' then some e else lookupE l k' := by
  induction l with
  | nil => simp [setE, lookupE]
  | cons hd t ih =>
    obtain ⟨k1, e1⟩ := hd
    by_cases hk : k1 = k
    · subst hk
      by_cases hk' : k1 = k' <;> simp [setE, lookupE, hk']
    · have hkk : ¬k = k1 := fun h => hk h.symm
      by_cases hk' : k1 = k'
      · subst hk'
        simp [setE, lookupE, hk, hkk]
      · simp [setE, lookupE, hk, hk', ih]

theorem lookupE_modifyE (l : List (CKey × Entry)) (k k' : CKey) (f : Entry → Entry) :
    lookupE (modifyE l k f) k' =
      if k = k' then (lookupE l k).map f else lookupE l k' := by
  induction l with
  | nil => simp [modifyE, lookupE]
  | cons hd t ih =>
    obtain ⟨k1, e1⟩ := hd
    by_cases hk : k1 = k
    · subst hk
      by_cases hk' : k1 = k' <;> simp [modifyE, lookupE, hk']
    · have hkk : ¬k = k1 := fun h => hk h.symm
      by_cases hk' : k1 = k'
      · subst hk'
        simp [modifyE, lookupE, hk, hkk]
      · simp [modifyE, lookupE, hk, hk', ih]

theorem map_fst_modifyE (l : List (CKey × Entry)) (k : CKey) (f : Entry → Entry) :
    (modifyE l k f).map Prod.fst = l.map Prod.fst := by
  induction l with
  | nil => simp [modifyE]
  | cons hd t ih =>
    obtain ⟨k1, e1⟩ := hd
    by_cases hk : k1 = k <;> simp [modifyE, hk, ih]

theorem lookupE_eq_none (l : List (CKey × Entry)) (k : CKey) :
    lookupE l k = none ↔ k ∉ l.map Prod.fst := by
  induction l with
  | nil => simp [lookupE]
  | cons hd t ih =>
    obtain ⟨k1, e1⟩ := hd
    by_cases hk : k1 = k
    · subst hk
      simp [lookupE]
    · simp only [lookupE, if_neg hk, List.map_cons, List.mem_cons]
      rw [ih]
      constructor
      · intro h
        rintro (h1 | h1)
        · exact hk h1.symm
        · exact h h1
      · intro h h1
        exact h (Or.inr h1)

theorem setE_eq_append (l : List (CKey × Entry)) (k : CKey) (e : Entry)
    (h : lookupE l k = none) : setE l k e = l ++ [(k, e)] := by
  induction l with
  | nil => simp [setE]
  | cons hd t ih =>
    obtain ⟨k1, e1⟩ := hd
    by_cases hk : k1 = k
    · subst hk
      simp [lookupE] at h
    · simp [lookupE, hk] at h
      simp [setE, hk, ih h]

theorem map_fst_setE_of_some (l : List (CKey × Entry)) (k : CKey) (e e0 : Entry)
    (h : lookupE l k = some e0) : (setE l k e).map Prod.fst = l.map Prod.fst := by
  induction l with
  | nil => simp [lookupE] at h
  | cons hd t ih =>
    obtain ⟨k1, e1⟩ := hd
    by_cases hk : k1 = k
    · subst hk
      simp [setE]
    · simp [lookupE, hk] at h
      simp [setE, hk, ih h]

theorem lookupE_mem (l : List (CKey × Entry)) (k : CKey) (e : Entry)
    (h : lookupE l k = some e) : (k, e) ∈ l := by
  induction l with
  | nil => simp [lookupE] at h
  | cons hd t ih =>
    obtain ⟨k1, e1⟩ := hd
    by_cases hk : k1 = k
    · subst hk
      simp [lookupE] at h
      simp [h]
    · simp [lookupE, hk] at h
      exact List.mem_cons_of_mem _ (ih h)

theorem mem_setE_of_ne (l : List (CKey × Entry)) (k : CKey) (e : Entry)
    (x : CKey × Entry) (hx : x ∈ l) (hne : x.1 ≠ k) : x ∈ setE l k e := by
  induction l with
  | nil => simp at hx
  | cons hd t ih =>
    obtain ⟨k1, e1⟩ := hd
    rcases List.mem_cons.mp hx with h1 | h1
    · subst h1
      simp only [setE]
      rw [if_neg hne]
      simp
    · by_cases hk : k1 = k
      · subst hk
        simp only [setE, if_pos rfl]
        exact List.mem_cons_of_mem _ h1
      · simp only [setE, if_neg hk]
        exact List.mem_cons_of_mem _ (ih h1)

theorem mem_modifyE_of_ne (l : List (CKey × Entry)) (k : CKey) (f : Entry → Entry)
    (x : CKey × Entry) (hx : x ∈ l) (hne : x.1 ≠ k) : x ∈ modifyE l k f := by
  induction l with
  | nil => simp at hx
  | cons hd t ih =>
    obtain ⟨k1, e1⟩ := hd
    rcases List.mem_cons.mp hx with h1 | h1
    · subst h1
      simp only [modifyE]
      rw [if_neg hne]
      simp
    · by_cases hk : k1 = k
      · subst hk
        simp only [modifyE, if_pos rfl]
        exact List.mem_cons_of_mem _ h1
      · simp only [modifyE, if_neg hk]
        exact List.mem_cons_of_mem _ (ih h1)

theorem mem_setE (l : List (CKey × Entry)) (k : CKey) (e : Entry)
    (hnd : (l.map Prod.fst).Nodup) (x : CKey × Entry) (hx : x ∈ setE l k e) :
    x = (k, e) ∨ (x ∈ l ∧ x.1 ≠ k) := by
  induction l with
  | nil => simp [setE] at hx; simp [hx]
  | cons hd t ih =>
    obtain ⟨k1, e1⟩ := hd
    simp only [List.map_cons, List.nodup_cons] at hnd
    by_cases hk : k1 = k
    · subst hk
      simp only [setE, if_pos rfl] at hx
      rcases List.mem_cons.mp hx with h1 | h1
      · exact Or.inl h1
      · refine Or.inr ⟨List.mem_cons_of_mem _ h1, ?_⟩
        intro hcontra
        exact hnd.1 (hcontra ▸ List.mem_map_of_mem Prod.fst h1)
    · simp only [setE, if_neg hk] at hx
      rcases List.mem_cons.mp hx with h1 | h1
      · subst h1
        exact Or.inr ⟨List.mem_cons_self _ _, hk⟩
      · rcases ih hnd.2 h1 with h2 | h2
        · exact Or.inl h2
        · exact Or.inr ⟨List.mem_cons_of_mem _ h2.1, h2.2⟩

theorem mem_modifyE (l : List (CKey × Entry)) (k : CKey) (f : Entry → Entry)
    (hnd : (l.map Prod.fst).Nodup) (x : CKey × Entry) (hx : x ∈ modifyE l k f) :
    (∃ e0, lookupE l k = some e0 ∧ x = (k, f e0)) ∨ (x ∈ l ∧ x.1 ≠ k) := by
  induction l with
  | nil => simp [modifyE] at hx
  | cons hd t ih =>
    obtain ⟨k1, e1⟩ := hd
    simp only [List.map_cons, List.nodup_cons] at hnd
    by_cases hk : k1 = k
    · subst hk
      simp only [modifyE, if_pos rfl] at hx
      rcases List.mem_cons.mp hx with h1 | h1
      · exact Or.inl ⟨e1, by simp [lookupE], h1⟩
      · refine Or.inr ⟨List.mem_cons_of_mem _ h1, ?_⟩
        intro hcontra
        exact hnd.1 (hcontra ▸ List.mem_map_of_mem Prod.fst h1)
    · simp only [modifyE, if_neg hk] at hx
      rcases List.mem_cons.mp hx with h1 | h1
      · subst h1
        exact Or.inr ⟨List.mem_cons_self _ _, hk⟩
      · rcases ih hnd.2 h1 with h2 | h2
        · obtain ⟨e0, he0, hxe⟩ := h2
          exact Or.inl ⟨e0, by simp [lookupE, hk, he0], hxe⟩
        · exact Or.inr ⟨List.mem_cons_of_mem _ h2.1, h2.2⟩

theorem nodup_keys_setE (l : List (CKey × Entry)) (k : CKey) (e : Entry)
    (hnd : (l.map Prod.fst).Nodup) : ((setE l k e).map Prod.fst).Nodup := by
  rcases h : lookupE l k with _ | e0
  · rw [setE_eq_append l k e h, List.map_append]
    rw [List.nodup_append]
    refine ⟨hnd, by simp, ?_⟩
    intro a ha hb
    simp at hb
    subst hb
    exact ((lookupE_eq_none l a).mp h) ha
  · rw [map_fst_setE_of_some l k e e0 h]
    exact hnd

theorem nodup_keys_modifyE (l : List (CKey × Entry)) (k : CKey) (f : Entry → Entry)
    (hnd : (l.map Prod.fst).Nodup) : ((modifyE l k f).map Prod.fst).Nodup := by
  rw [map_fst_modifyE]
  exact hnd

/-! ## Branch equations for the call and settle steps -/

theorem initA_of_some (l : List (CKey × Entry)) (cn act : String) (e : Entry)
    (h : lookupE l ⟨cn, act⟩ = some e) : initA l cn act = l := by
  simp [initA, h]

theorem initA_of_none (l : List (CKey × Entry)) (cn act : String)
    (h : lookupE l ⟨cn, act⟩ = none) :
    initA l cn act = setE l ⟨cn, act⟩ ⟨false, none⟩ := by
  simp [initA, h]

/-- `initA` never disturbs a key that is already present. -/
theorem lookupE_initA_of_some (l : List (CKey × Entry)) (cn act : String)
    (k : CKey) (e : Entry) (h : lookupE l k = some e) :
    lookupE (initA l cn act) k = some e := by
  rcases h0 : lookupE l ⟨cn, act⟩ with _ | e0
  · rw [initA_of_none l cn act h0, lookupE_setE]
    split
    · next heq => rw [← heq] at h; rw [h] at h0; cases h0
    · exact h
  · rw [initA_of_some l cn act e0 h0]
    exact h

/-- Lines 199-208 with `isFetching` truthy: return the stored promise,
touch nothing but the line 189-194 initialisation. -/
theorem rcasr_busy (w : World) (cn act opts : String) (e : Entry)
    (h : lookupE (initA w.cachedResults cn act) ⟨cn, opts⟩ = some e)
    (hf : e.isFetching = true) :
    returnCacheAndStartRefetch w cn act opts =
      ({ w with cachedResults := initA w.cachedResults cn act }, e.promise) := by
  simp [returnCacheAndStartRefetch, h, hf]

/-- Lines 199-208 with `isFetching` falsy: set the flag, issue a refresh
fetch, register its callback, return the stale stored promise. -/
theorem rcasr_stale (w : World) (cn act opts : String) (e : Entry)
    (h : lookupE (initA w.cachedResults cn act) ⟨cn, opts⟩ = some e)
    (hf : e.isFetching = false) :
    returnCacheAndStartRefetch w cn act opts =
      ({ w with
          cachedResults := setE (initA w.cachedResults cn act) ⟨cn, opts⟩
            ⟨true, e.promise⟩,
          fetches := w.fetches ++ [⟨w.nextId, cn, act, opts, FetchKind.refetch⟩],
          conts := w.conts ++ [Callback.refetchDone ⟨cn, opts⟩ w.nextId],
          nextId := w.nextId + 1 },
        e.promise) := by
  simp [returnCacheAndStartRefetch, h, hf]

/-- Lines 211-221: no entry yet, issue a cold fetch, create the entry with
the new promise stored immediately, return the new promise. -/
theorem rcasr_cold (w : World) (cn act opts : String)
    (h : lookupE (initA w.cachedResults cn act) ⟨cn, opts⟩ = none) :
    returnCacheAndStartRefetch w cn act opts =
      ({ w with
          cachedResults := setE (initA w.cachedResults cn act) ⟨cn, opts⟩
            ⟨true, some w.nextId⟩,
          fetches := w.fetches ++ [⟨w.nextId, cn, act, opts, FetchKind.cold⟩],
          conts := w.conts ++ [Callback.coldDone ⟨cn, opts⟩ w.nextId],
          nextId := w.nextId + 1 },
        some w.nextId) := by
  simp [returnCacheAndStartRefetch, h]

/-! ## Firing callbacks at settlement -/

theorem filter_pid_eq (conts : List Callback) (p : Nat)
    (hnd : (conts.map pid).Nodup) :
    conts.filter (fun c => pid c == p) = [] ∨
      ∃ c ∈ conts, pid c = p ∧ conts.filter (fun c => pid c == p) = [c] := by
  induction conts with
  | nil => simp
  | cons c t ih =>
    simp only [List.map_cons, List.nodup_cons] at hnd
    by_cases hc : pid c = p
    · right
      refine ⟨c, List.mem_cons_self _ _, hc, ?_⟩
      rw [List.filter_cons_of_pos (by simp [hc])]
      have ht : t.filter (fun c => pid c == p) = [] := by
        rw [List.filter_eq_nil_iff]
        intro d hd
        simp only [beq_iff_eq]
        intro hdp
        exact hnd.1 (by rw [hc, ← hdp]; exact List.mem_map_of_mem pid hd)
      rw [ht]
    · rw [List.filter_cons_of_neg (by simp [hc])]
      rcases ih hnd.2 with h1 | ⟨d, hd, hdp, h1⟩
      · exact Or.inl h1
      · exact Or.inr ⟨d, List.mem_cons_of_mem _ hd, hdp, h1⟩

theorem filter_ne_of_none (conts : List Callback) (p : Nat)
    (h : ∀ c ∈ conts, pid c ≠ p) :
    conts.filter (fun c => pid c != p) = conts := by
  rw [List.filter_eq_self]
  intro c hc
  simp [h c hc]

/-- The settle step when no callback waits on the promise. -/
theorem settleW_no_cont (w : World) (p : Nat) (o : Outcome)
    (h : ∀ c ∈ w.conts, pid c ≠ p) :
    settleW w p o = { w with settled := w.settled ++ [(p, o)] } := by
  have h1 : w.conts.filter (fun c => pid c == p) = [] := by
    rw [List.filter_eq_nil_iff]
    intro c hc
    simp [h c hc]
  simp [settleW, h1, filter_ne_of_none w.conts p h]

/-- The settle step when exactly one callback waits on the promise. -/
theorem settleW_one_cont (w : World) (p : Nat) (o : Outcome) (c : Callback)
    (h1 : w.conts.filter (fun c => pid c == p) = [c]) :
    settleW w p o =
      { w with
          cachedResults := applyCont o w.cachedResults c,
          conts := w.conts.filter (fun c => pid c != p),
          settled := w.settled ++ [(p, o)] } := by
  simp [settleW, h1]

/-! ## The reachable-state invariant -/

/-- Promise `p` does not occur in a settlement log. -/
def notSettledL (settled : List (Nat × Outcome)) (p : Nat) : Prop :=
  ∀ s ∈ settled, s.1 ≠ p

/-- An outcome is a fulfilment. -/
def isFulfilled : Outcome → Bool
  | Outcome.fulfilled _ => true
  | Outcome.rejected _ => false

/-- Promise `q` has fulfilled according to a settlement log. -/
def fulfilledL (settled : List (Nat × Outcome)) (q : Nat) : Prop :=
  ∃ s ∈ settled, s.1 = q ∧ isFulfilled s.2 = true

instance decNotSettledL (settled : List (Nat × Outcome)) (p : Nat) :
    Decidable (notSettledL settled p) := by
  unfold notSettledL
  exact inferInstance

instance decFulfilledL (settled : List (Nat × Outcome)) (q : Nat) :
    Decidable (fulfilledL settled q) := by
  unfold fulfilledL
  exact inferInstance

/-- The cold-fetch promise a callback will write, if any. -/
def coldP : Callback → Option Nat
  | Callback.refetchDone _ _ => none
  | Callback.coldDone _ p => some p

/-- While a callback is pending, its entry exists with `isFetching` set, and
a pending cold callback's entry still stores exactly the cold promise. -/
def contEntryOK (cache : List (CKey × Entry)) (c : Callback) : Prop :=
  (lookupE cache (ckey c)).map Entry.isFetching = some true ∧
  ∀ p ∈ (coldP c).toList,
    (lookupE cache (ckey c)).map Entry.promise = some (some p)

/-- Invariant of every state reachable from `initW` by admissible events. -/
structure WInv (w : World) : Prop where
  ids : w.fetches.map Fetch.id = List.range w.nextId
  contFetch : ∀ c ∈ w.conts,
    ∃ f ∈ w.fetches, f.id = pid c ∧ fkey f = ckey c ∧ f.kind = kindOf c
  contUnsettled : ∀ c ∈ w.conts, notSettledL w.settled (pid c)
  contPids : (w.conts.map pid).Nodup
  contKeys : (w.conts.map ckey).Nodup
  contEntry : ∀ c ∈ w.conts, contEntryOK w.cachedResults c
  inflightCont : ∀ f ∈ w.fetches, notSettledL w.settled f.id →
    ∃ c ∈ w.conts, pid c = f.id
  stored : ∀ x ∈ w.cachedResults, ∀ q ∈ (Prod.snd x).promise.toList,
    q < w.nextId ∧ ∃ f ∈ w.fetches, f.id = q ∧
      (f.kind = FetchKind.cold ∨ fulfilledL w.settled q)
  stale : ∀ x ∈ w.cachedResults, (Prod.snd x).isFetching = false →
    ∀ q ∈ (Prod.snd x).promise.toList, fulfilledL w.settled q
  settledOnce : (w.settled.map Prod.fst).Nodup
  settledLt : ∀ s ∈ w.settled, Prod.fst s < w.nextId
  cacheKeys : (w.cachedResults.map Prod.fst).Nodup

theorem winv_initW : WInv initW := by
  constructor <;> simp [initW, notSettledL]

theorem fetch_id_lt (w : World) (hInv : WInv w) (f : Fetch) (hf : f ∈ w.fetches) :
    f.id < w.nextId := by
  have h : f.id ∈ w.fetches.map Fetch.id := List.mem_map_of_mem Fetch.id hf
  rw [hInv.ids] at h
  exact List.mem_range.mp h

theorem fetch_id_inj (w : World) (hInv : WInv w) (f1 f2 : Fetch)
    (h1 : f1 ∈ w.fetches) (h2 : f2 ∈ w.fetches) (h : f1.id = f2.id) : f1 = f2 := by
  have hnd : (w.fetches.map Fetch.id).Nodup := by
    rw [hInv.ids]
    exact List.nodup_range _
  exact List.inj_on_of_nodup_map hnd h1 h2 h

theorem cont_pid_lt (w : World) (hInv : WInv w) (c : Callback) (hc : c ∈ w.conts) :
    pid c < w.nextId := by
  obtain ⟨f, hf, hid, -, -⟩ := hInv.contFetch c hc
  exact hid ▸ fetch_id_lt w hInv f hf

theorem cont_key_inj (w : World) (hInv : WInv w) (c1 c2 : Callback)
    (h1 : c1 ∈ w.conts) (h2 : c2 ∈ w.conts) (h : ckey c1 = ckey c2) : c1 = c2 :=
  List.inj_on_of_nodup_map hInv.contKeys h1 h2 h

/-- No pending callback watches a key whose entry is absent or has
`isFetching` falsy. -/
theorem no_cont_at_key (w : World) (hInv : WInv w) (k : CKey)
    (hk : (lookupE w.cachedResults k).map Entry.isFetching ≠ some true) :
    ∀ c ∈ w.conts, ckey c ≠ k := by
  intro c hc hck
  exact hk (hck ▸ (hInv.contEntry c hc).1)

/-! ## Preservation of the invariant -/

theorem winv_initA (w : World) (cn act : String) (hInv : WInv w) :
    WInv { w with cachedResults := initA w.cachedResults cn act } := by
  rcases h0 : lookupE w.cachedResults ⟨cn, act⟩ with _ | e0
  case none =>
    rw [initA_of_none w.cachedResults cn act h0]
    have happ := setE_eq_append w.cachedResults ⟨cn, act⟩ ⟨false, none⟩ h0
    constructor
    · exact hInv.ids
    · exact hInv.contFetch
    · exact hInv.contUnsettled
    · exact hInv.contPids
    · exact hInv.contKeys
    · intro c hc
      obtain ⟨h1, h2⟩ := hInv.contEntry c hc
      obtain ⟨e, he, hef⟩ := Option.map_eq_some'.mp h1
      have he' : lookupE (setE w.cachedResults ⟨cn, act⟩ ⟨false, none⟩) (ckey c)
          = some e := by
        rw [lookupE_setE]
        split
        · next heq => rw [← heq] at he; rw [he] at h0; cases h0
        · exact he
      refine ⟨?_, ?_⟩
      · rw [he] at h1
        rw [he']
        exact h1
      · intro p hp
        have h3 := h2 p hp
        rw [he] at h3
        rw [he']
        exact h3
    · exact hInv.inflightCont
    · intro x hx q hq
      rw [happ] at hx
      rcases List.mem_append.mp hx with hx1 | hx1
      · exact hInv.stored x hx1 q hq
      · simp at hx1
        subst hx1
        simp at hq
    · intro x hx hf q hq
      rw [happ] at hx
      rcases List.mem_append.mp hx with hx1 | hx1
      · exact hInv.stale x hx1 hf q hq
      · simp at hx1
        subst hx1
        simp at hq
    · exact hInv.settledOnce
    · exact hInv.settledLt
    · exact nodup_keys_setE _ _ _ hInv.cacheKeys
  case some =>
    rw [initA_of_some w.cachedResults cn act e0 h0]
    exact hInv

theorem winv_call_stale (w : World) (cn act opts : String) (e : Entry)
    (hInv : WInv w)
    (hl : lookupE w.cachedResults ⟨cn, opts⟩ = some e)
    (hf : e.isFetching = false) :
    WInv { w with
        cachedResults := setE w.cachedResults ⟨cn, opts⟩ ⟨true, e.promise⟩,
        fetches := w.fetches ++ [⟨w.nextId, cn, act, opts, FetchKind.refetch⟩],
        conts := w.conts ++ [Callback.refetchDone ⟨cn, opts⟩ w.nextId],
        nextId := w.nextId + 1 } := by
  have hkc : ∀ c ∈ w.conts, ckey c ≠ ⟨cn, opts⟩ :=
    no_cont_at_key w hInv ⟨cn, opts⟩ (by rw [hl]; simp [hf])
  have hmem : (⟨cn, opts⟩, e) ∈ w.cachedResults := lookupE_mem _ _ _ hl
  constructor
  · simp only [List.map_append, hInv.ids, List.map_cons, List.map_nil]
    exact (List.range_succ w.nextId).symm
  · intro c hc
    rcases List.mem_append.mp hc with hc1 | hc1
    · obtain ⟨f, hfmem, hid, hkey, hkind⟩ := hInv.contFetch c hc1
      exact ⟨f, List.mem_append_left _ hfmem, hid, hkey, hkind⟩
    · simp only [List.mem_singleton] at hc1
      subst hc1
      exact ⟨⟨w.nextId, cn, act, opts, FetchKind.refetch⟩,
        List.mem_append_right _ (by simp), rfl, rfl, rfl⟩
  · intro c hc
    rcases List.mem_append.mp hc with hc1 | hc1
    · exact hInv.contUnsettled c hc1
    · simp only [List.mem_singleton] at hc1
      subst hc1
      intro s hs
      have := hInv.settledLt s hs
      simp only [pid]
      omega
  · simp only [List.map_append, List.map_cons, List.map_nil]
    rw [List.nodup_append]
    refine ⟨hInv.contPids, by simp, ?_⟩
    intro a ha hb
    simp only [List.mem_singleton, pid] at hb
    subst hb
    obtain ⟨c, hc, hpc⟩ := List.mem_map.mp ha
    have := cont_pid_lt w hInv c hc
    omega
  · simp only [List.map_append, List.map_cons, List.map_nil]
    rw [List.nodup_append]
    refine ⟨hInv.contKeys, by simp, ?_⟩
    intro a ha hb
    simp only [List.mem_singleton, ckey] at hb
    subst hb
    obtain ⟨c, hc, hpc⟩ := List.mem_map.mp ha
    exact hkc c hc hpc
  · intro c hc
    rcases List.mem_append.mp hc with hc1 | hc1
    · obtain ⟨h1, h2⟩ := hInv.contEntry c hc1
      have hne : (⟨cn, opts⟩ : CKey) ≠ ckey c := fun h => hkc c hc1 h.symm
      constructor
      · rw [lookupE_setE, if_neg hne]
        exact h1
      · intro p hp
        rw [lookupE_setE, if_neg hne]
        exact h2 p hp
    · simp only [List.mem_singleton] at hc1
      subst hc1
      constructor
      · simp only [ckey]
        rw [lookupE_setE, if_pos rfl]
        rfl
      · intro p hp
        simp only [coldP, Option.toList_none] at hp
        cases hp
  · intro f hfm hns
    rcases List.mem_append.mp hfm with h1 | h1
    · obtain ⟨c, hc, hpc⟩ := hInv.inflightCont f h1 hns
      exact ⟨c, List.mem_append_left _ hc, hpc⟩
    · simp only [List.mem_singleton] at h1
      subst h1
      exact ⟨Callback.refetchDone ⟨cn, opts⟩ w.nextId,
        List.mem_append_right _ (by simp), rfl⟩
  · intro x hx q hq
    rcases mem_setE _ _ _ hInv.cacheKeys x hx with h1 | ⟨h1, h2⟩
    · subst h1
      obtain ⟨hqlt, f, hfm, hfid, hdisj⟩ :=
        hInv.stored ⟨⟨cn, opts⟩, e⟩ hmem q (by simpa using hq)
      exact ⟨Nat.lt_succ_of_lt hqlt, f, List.mem_append_left _ hfm, hfid, hdisj⟩
    · obtain ⟨hqlt, f, hfm, hfid, hdisj⟩ := hInv.stored x h1 q hq
      exact ⟨Nat.lt_succ_of_lt hqlt, f, List.mem_append_left _ hfm, hfid, hdisj⟩
  · intro x hx hfx q hq
    rcases mem_setE _ _ _ hInv.cacheKeys x hx with h1 | ⟨h1, h2⟩
    · subst h1
      simp at hfx
    · exact hInv.stale x h1 hfx q hq
  · exact hInv.settledOnce
  · intro s hs
    exact Nat.lt_succ_of_lt (hInv.settledLt s hs)
  · exact nodup_keys_setE _ _ _ hInv.cacheKeys

theorem winv_call_cold (w : World) (cn act opts : String)
    (hInv : WInv w)
    (hl : lookupE w.cachedResults ⟨cn, opts⟩ = none) :
    WInv { w with
        cachedResults := setE w.cachedResults ⟨cn, opts⟩ ⟨true, some w.nextId⟩,
        fetches := w.fetches ++ [⟨w.nextId, cn, act, opts, FetchKind.cold⟩],
        conts := w.conts ++ [Callback.coldDone ⟨cn, opts⟩ w.nextId],
        nextId := w.nextId + 1 } := by
  have hkc : ∀ c ∈ w.conts, ckey c ≠ ⟨cn, opts⟩ :=
    no_cont_at_key w hInv ⟨cn, opts⟩ (by rw [hl]; simp)
  have happ := setE_eq_append w.cachedResults ⟨cn, opts⟩ ⟨true, some w.nextId⟩ hl
  constructor
  · simp only [List.map_append, hInv.ids, List.map_cons, List.map_nil]
    exact (List.range_succ w.nextId).symm
  · intro c hc
    rcases List.mem_append.mp hc with hc1 | hc1
    · obtain ⟨f, hfmem, hid, hkey, hkind⟩ := hInv.contFetch c hc1
      exact ⟨f, List.mem_append_left _ hfmem, hid, hkey, hkind⟩
    · simp only [List.mem_singleton] at hc1
      subst hc1
      exact ⟨⟨w.nextId, cn, act, opts, FetchKind.cold⟩,
        List.mem_append_right _ (by simp), rfl, rfl, rfl⟩
  · intro c hc
    rcases List.mem_append.mp hc with hc1 | hc1
    · exact hInv.contUnsettled c hc1
    · simp only [List.mem_singleton] at hc1
      subst hc1
      intro s hs
      have := hInv.settledLt s hs
      simp only [pid]
      omega
  · simp only [List.map_append, List.map_cons, List.map_nil]
    rw [List.nodup_append]
    refine ⟨hInv.contPids, by simp, ?_⟩
    intro a ha hb
    simp only [List.mem_singleton, pid] at hb
    subst hb
    obtain ⟨c, hc, hpc⟩ := List.mem_map.mp ha
    have := cont_pid_lt w hInv c hc
    omega
  · simp only [List.map_append, List.map_cons, List.map_nil]
    rw [List.nodup_append]
    refine ⟨hInv.contKeys, by simp, ?_⟩
    intro a ha hb
    simp only [List.mem_singleton, ckey] at hb
    subst hb
    obtain ⟨c, hc, hpc⟩ := List.mem_map.mp ha
    exact hkc c hc hpc
  · intro c hc
    rcases List.mem_append.mp hc with hc1 | hc1
    · obtain ⟨h1, h2⟩ := hInv.contEntry c hc1
      have hne : (⟨cn, opts⟩ : CKey) ≠ ckey c := fun h => hkc c hc1 h.symm
      constructor
      · rw [lookupE_setE, if_neg hne]
        exact h1
      · intro p hp
        rw [lookupE_setE, if_neg hne]
        exact h2 p hp
    · simp only [List.mem_singleton] at hc1
      subst hc1
      constructor
      · simp only [ckey]
        rw [lookupE_setE, if_pos rfl]
        rfl
      · intro p hp
        simp only [coldP, Option.toList_some, List.mem_singleton] at hp
        subst hp
        simp only [ckey]
        rw [lookupE_setE, if_pos rfl]
        rfl
  · intro f hfm hns
    rcases List.mem_append.mp hfm with h1 | h1
    · obtain ⟨c, hc, hpc⟩ := hInv.inflightCont f h1 hns
      exact ⟨c, List.mem_append_left _ hc, hpc⟩
    · simp only [List.mem_singleton] at h1
      subst h1
      exact ⟨Callback.coldDone ⟨cn, opts⟩ w.nextId,
        List.mem_append_right _ (by simp), rfl⟩
  · intro x hx q hq
    rw [happ] at hx
    rcases List.mem_append.mp hx with h1 | h1
    · obtain ⟨hqlt, f, hfm, hfid, hdisj⟩ := hInv.stored x h1 q hq
      exact ⟨Nat.lt_succ_of_lt hqlt, f, List.mem_append_left _ hfm, hfid, hdisj⟩
    · simp only [List.mem_singleton] at h1
      subst h1
      simp only [Option.toList_some, List.mem_singleton] at hq
      subst hq
      exact ⟨Nat.lt_succ_self _, ⟨w.nextId, cn, act, opts, FetchKind.cold⟩,
        List.mem_append_right _ (by simp), rfl, Or.inl rfl⟩
  · intro x hx hfx q hq
    rw [happ] at hx
    rcases List.mem_append.mp hx with h1 | h1
    · exact hInv.stale x h1 hfx q hq
    · simp only [List.mem_singleton] at h1
      subst h1
      simp at hfx
  · exact hInv.settledOnce
  · intro s hs
    exact Nat.lt_succ_of_lt (hInv.settledLt s hs)
  · exact nodup_keys_setE _ _ _ hInv.cacheKeys

theorem fulfilledL_append (l l2 : List (Nat × Outcome)) (q : Nat)
    (h : fulfilledL l q) : fulfilledL (l ++ l2) q := by
  obtain ⟨s, hs, h1, h2⟩ := h
  exact ⟨s, List.mem_append_left _ hs, h1, h2⟩

theorem mem_filter_ne (conts : List Callback) (p : Nat) (c : Callback) :
    c ∈ conts.filter (fun c => pid c != p) ↔ c ∈ conts ∧ pid c ≠ p := by
  rw [List.mem_filter]
  simp [bne_iff_ne]

theorem winv_settle (w : World) (p : Nat) (o : Outcome) (hInv : WInv w)
    (hp : p < w.nextId) (hns : notSettledL w.settled p) :
    WInv (settleW w p o) := by
  have hpmap : p ∉ w.settled.map Prod.fst := by
    intro hmem
    obtain ⟨s, hs1, hs2⟩ := List.mem_map.mp hmem
    exact hns s hs1 hs2
  rcases filter_pid_eq w.conts p hInv.contPids with hfil | ⟨c0, hc0, hpc0, hfil⟩
  · -- no callback waits on p
    have hnone : ∀ c ∈ w.conts, pid c ≠ p := by
      intro c hc
      have := List.filter_eq_nil_iff.mp hfil c hc
      simpa using this
    rw [settleW_no_cont w p o hnone]
    constructor
    · exact hInv.ids
    · exact hInv.contFetch
    · intro c hc s hsm
      rcases List.mem_append.mp hsm with h1 | h1
      · exact hInv.contUnsettled c hc s h1
      · simp only [List.mem_singleton] at h1
        subst h1
        exact fun h => hnone c hc h.symm
    · exact hInv.contPids
    · exact hInv.contKeys
    · exact hInv.contEntry
    · intro f hf hns'
      have hnsold : notSettledL w.settled f.id := fun s hs1 =>
        hns' s (List.mem_append_left _ hs1)
      exact hInv.inflightCont f hf hnsold
    · intro x hx q hq
      obtain ⟨hqlt, f, hfm, hfid, hdisj⟩ := hInv.stored x hx q hq
      refine ⟨hqlt, f, hfm, hfid, ?_⟩
      rcases hdisj with h | h
      · exact Or.inl h
      · exact Or.inr (fulfilledL_append _ _ _ h)
    · intro x hx hfx q hq
      exact fulfilledL_append _ _ _ (hInv.stale x hx hfx q hq)
    · simp only [List.map_append, List.map_cons, List.map_nil]
      rw [List.nodup_append]
      exact ⟨hInv.settledOnce, by simp, by
        intro a ha hb
        simp only [List.mem_singleton] at hb
        subst hb
        exact hpmap ha⟩
    · intro s hsm
      rcases List.mem_append.mp hsm with h1 | h1
      · exact hInv.settledLt s h1
      · simp only [List.mem_singleton] at h1
        subst h1
        exact hp
    · exact hInv.cacheKeys
  · -- exactly one callback c0 waits on p
    rw [settleW_one_cont w p o c0 hfil]
    have hcsub : ∀ c, c ∈ w.conts.filter (fun c => pid c != p) →
        c ∈ w.conts ∧ pid c ≠ p := fun c hc => (mem_filter_ne w.conts p c).mp hc
    have hckne : ∀ c, c ∈ w.conts → pid c ≠ p → ckey c0 ≠ ckey c := by
      intro c hc hcp h
      exact hcp (by rw [cont_key_inj w hInv c c0 hc hc0 h.symm, hpc0])
    constructor
    · exact hInv.ids
    · intro c hc
      exact hInv.contFetch c (hcsub c hc).1
    · intro c hc s hsm
      rcases List.mem_append.mp hsm with h1 | h1
      · exact hInv.contUnsettled c (hcsub c hc).1 s h1
      · simp only [List.mem_singleton] at h1
        subst h1
        exact fun h => (hcsub c hc).2 h.symm
    · exact hInv.contPids.sublist ((List.filter_sublist _).map pid)
    · exact hInv.contKeys.sublist ((List.filter_sublist _).map ckey)
    · -- contEntry: the surviving callbacks watch keys other than ckey c0,
      -- and only the entry at ckey c0 can change
      intro c hc
      obtain ⟨hcw, hcp⟩ := hcsub c hc
      obtain ⟨h1, h2⟩ := hInv.contEntry c hcw
      have hlook : lookupE (applyCont o w.cachedResults c0) (ckey c) =
          lookupE w.cachedResults (ckey c) := by
        rcases o with v | e
        · cases c0 with
          | refetchDone k0 p0 =>
            simp only [applyCont]
            rw [lookupE_modifyE, if_neg (show k0 ≠ ckey c from hckne c hcw hcp)]
          | coldDone k0 p0 =>
            simp only [applyCont]
            rw [lookupE_modifyE, if_neg (show k0 ≠ ckey c from hckne c hcw hcp)]
        · simp [applyCont]
      exact ⟨by rw [hlook]; exact h1, fun q hq => by rw [hlook]; exact h2 q hq⟩
    · intro f hf hns'
      have hfp : f.id ≠ p := by
        intro h
        exact hns' (p, o) (List.mem_append_right _ (by simp)) h.symm
      have hnsold : notSettledL w.settled f.id := fun s hs1 =>
        hns' s (List.mem_append_left _ hs1)
      obtain ⟨c, hc, hcid⟩ := hInv.inflightCont f hf hnsold
      exact ⟨c, (mem_filter_ne w.conts p c).mpr ⟨hc, by rw [hcid]; exact hfp⟩, hcid⟩
    · -- stored
      intro x hx q hq
      rcases o with v | e
      · -- fulfilment: the callback rewrote the entry at ckey c0
        cases c0 with
        | refetchDone k0 p0 =>
          have hp0 : p0 = p := by simpa [pid] using hpc0
          subst hp0
          simp only [applyCont] at hx
          rcases mem_modifyE _ _ _ hInv.cacheKeys x hx with ⟨e0, he0, hxe⟩ | ⟨h1, h2⟩
          · subst hxe
            simp only [Option.toList_some, List.mem_singleton] at hq
            subst hq
            obtain ⟨f, hf, hfid, -, -⟩ := hInv.contFetch _ hc0
            simp only [pid] at hfid
            exact ⟨hp, f, hf, hfid,
              Or.inr ⟨(q, Outcome.fulfilled v), List.mem_append_right _ (by simp),
                rfl, rfl⟩⟩
          · obtain ⟨hqlt, f, hfm, hfid, hdisj⟩ := hInv.stored x h1 q hq
            refine ⟨hqlt, f, hfm, hfid, ?_⟩
            rcases hdisj with h | h
            · exact Or.inl h
            · exact Or.inr (fulfilledL_append _ _ _ h)
        | coldDone k0 p0 =>
          have hp0 : p0 = p := by simpa [pid] using hpc0
          subst hp0
          simp only [applyCont] at hx
          rcases mem_modifyE _ _ _ hInv.cacheKeys x hx with ⟨e0, he0, hxe⟩ | ⟨h1, h2⟩
          · subst hxe
            obtain ⟨hqlt, f, hfm, hfid, hdisj⟩ :=
              hInv.stored ⟨k0, e0⟩ (lookupE_mem _ _ _ he0) q (by simpa using hq)
            refine ⟨hqlt, f, hfm, hfid, ?_⟩
            rcases hdisj with h | h
            · exact Or.inl h
            · exact Or.inr (fulfilledL_append _ _ _ h)
          · obtain ⟨hqlt, f, hfm, hfid, hdisj⟩ := hInv.stored x h1 q hq
            refine ⟨hqlt, f, hfm, hfid, ?_⟩
            rcases hdisj with h | h
            · exact Or.inl h
            · exact Or.inr (fulfilledL_append _ _ _ h)
      · -- rejection: lines 203-206 and 217-219 do nothing, cache unchanged
        simp only [applyCont] at hx
        obtain ⟨hqlt, f, hfm, hfid, hdisj⟩ := hInv.stored x hx q hq
        refine ⟨hqlt, f, hfm, hfid, ?_⟩
        rcases hdisj with h | h
        · exact Or.inl h
        · exact Or.inr (fulfilledL_append _ _ _ h)
    · -- stale
      intro x hx hfx q hq
      rcases o with v | e
      · cases c0 with
        | refetchDone k0 p0 =>
          have hp0 : p0 = p := by simpa [pid] using hpc0
          subst hp0
          simp only [applyCont] at hx
          rcases mem_modifyE _ _ _ hInv.cacheKeys x hx with ⟨e0, he0, hxe⟩ | ⟨h1, h2⟩
          · subst hxe
            simp only [Option.toList_some, List.mem_singleton] at hq
            subst hq
            exact ⟨(q, Outcome.fulfilled v), List.mem_append_right _ (by simp),
              rfl, rfl⟩
          · exact fulfilledL_append _ _ _ (hInv.stale x h1 hfx q hq)
        | coldDone k0 p0 =>
          have hp0 : p0 = p := by simpa [pid] using hpc0
          subst hp0
          simp only [applyCont] at hx
          rcases mem_modifyE _ _ _ hInv.cacheKeys x hx with ⟨e0, he0, hxe⟩ | ⟨h1, h2⟩
          · subst hxe
            obtain ⟨hce1, hce2⟩ := hInv.contEntry _ hc0
            have hce3 := hce2 p0 (by simp [coldP])
            simp only [ckey] at hce1 hce3
            rw [he0] at hce3
            have he0p : e0.promise = some p0 := by
              simpa using hce3
            simp only [he0p, Option.toList_some, List.mem_singleton] at hq
            subst hq
            exact ⟨(q, Outcome.fulfilled v), List.mem_append_right _ (by simp),
              rfl, rfl⟩
          · exact fulfilledL_append _ _ _ (hInv.stale x h1 hfx q hq)
      · simp only [applyCont] at hx
        exact fulfilledL_append _ _ _ (hInv.stale x hx hfx q hq)
    · simp only [List.map_append, List.map_cons, List.map_nil]
      rw [List.nodup_append]
      exact ⟨hInv.settledOnce, by simp, by
        intro a ha hb
        simp only [List.mem_singleton] at hb
        subst hb
        exact hpmap ha⟩
    · intro s hsm
      rcases List.mem_append.mp hsm with h1 | h1
      · exact hInv.settledLt s h1
      · simp only [List.mem_singleton] at h1
        subst h1
        exact hp
    · rcases o with v | e
      · cases c0 with
        | refetchDone k0 p0 =>
          simp only [applyCont]
          exact nodup_keys_modifyE _ _ _ hInv.cacheKeys
        | coldDone k0 p0 =>
          simp only [applyCont]
          exact nodup_keys_modifyE _ _ _ hInv.cacheKeys
      · simp only [applyCont]
        exact hInv.cacheKeys

theorem winv_step (w : World) (e : Event) (hInv : WInv w) (hwf : wfStep w e = true) :
    WInv (stepW w e) := by
  cases e with
  | call cn act opts =>
    have hInv0 : WInv { w with cachedResults := initA w.cachedResults cn act } :=
      winv_initA w cn act hInv
    show WInv (returnCacheAndStartRefetch w cn act opts).1
    rcases hl : lookupE (initA w.cachedResults cn act) ⟨cn, opts⟩ with _ | e0
    · rw [rcasr_cold w cn act opts hl]
      exact winv_call_cold { w with cachedResults := initA w.cachedResults cn act }
        cn act opts hInv0 hl
    · rcases hf : e0.isFetching with _ | _
      · rw [rcasr_stale w cn act opts e0 hl hf]
        exact winv_call_stale { w with cachedResults := initA w.cachedResults cn act }
          cn act opts e0 hInv0 hl hf
      · rw [rcasr_busy w cn act opts e0 hl hf]
        exact hInv0
  | settle p o =>
    simp only [wfStep, Bool.and_eq_true, decide_eq_true_eq] at hwf
    obtain ⟨hp, hall⟩ := hwf
    have hns : notSettledL w.settled p := by
      intro s hs
      have := List.all_eq_true.mp hall s hs
      simpa using this
    exact winv_settle w p o hInv hp hns

theorem winv_runFrom (w : World) (es : List Event) (hInv : WInv w)
    (hwf : wfFrom w es = true) : WInv (runFrom w es) := by
  induction es generalizing w with
  | nil => exact hInv
  | cons e t ih =>
    simp only [wfFrom, Bool.and_eq_true] at hwf
    exact ih (stepW w e) (winv_step w e hInv hwf.1) hwf.2

/-- Every state reachable from the empty initial state by admissible events
satisfies the invariant. -/
theorem winv_reachable (es : List Event) (hwf : wfFrom initW es = true) :
    WInv (runFrom initW es) :=
  winv_runFrom initW es winv_initW hwf

/-! ## Run and log monotonicity -/

theorem runFrom_append (w : World) (es1 es2 : List Event) :
    runFrom w (es1 ++ es2) = runFrom (runFrom w es1) es2 := by
  simp [runFrom, List.foldl_append]

theorem wfFrom_append (w : World) (es1 es2 : List Event) :
    wfFrom w (es1 ++ es2) =
      (wfFrom w es1 && wfFrom (runFrom w es1) es2) := by
  induction es1 generalizing w with
  | nil => simp [wfFrom, runFrom]
  | cons e t ih =>
    show (wfStep w e && wfFrom (stepW w e) (t ++ es2)) = _
    rw [ih (stepW w e), ← Bool.and_assoc]
    rfl

theorem fetches_step_shape (w : World) (e : Event) :
    ∃ l, (stepW w e).fetches = w.fetches ++ l := by
  cases e with
  | call cn act opts =>
    show ∃ l, (returnCacheAndStartRefetch w cn act opts).1.fetches = _
    rcases hl : lookupE (initA w.cachedResults cn act) ⟨cn, opts⟩ with _ | e0
    · rw [rcasr_cold w cn act opts hl]
      exact ⟨_, rfl⟩
    · rcases hf : e0.isFetching with _ | _
      · rw [rcasr_stale w cn act opts e0 hl hf]
        exact ⟨_, rfl⟩
      · rw [rcasr_busy w cn act opts e0 hl hf]
        exact ⟨[], (List.append_nil _).symm⟩
  | settle p o =>
    exact ⟨[], (List.append_nil _).symm⟩

theorem settled_step_shape (w : World) (e : Event) :
    ∃ l, (stepW w e).settled = w.settled ++ l := by
  cases e with
  | call cn act opts =>
    show ∃ l, (returnCacheAndStartRefetch w cn act opts).1.settled = _
    rcases hl : lookupE (initA w.cachedResults cn act) ⟨cn, opts⟩ with _ | e0
    · rw [rcasr_cold w cn act opts hl]
      exact ⟨[], (List.append_nil _).symm⟩
    · rcases hf : e0.isFetching with _ | _
      · rw [rcasr_stale w cn act opts e0 hl hf]
        exact ⟨[], (List.append_nil _).symm⟩
      · rw [rcasr_busy w cn act opts e0 hl hf]
        exact ⟨[], (List.append_nil _).symm⟩
  | settle p o =>
    exact ⟨_, rfl⟩

theorem fetches_runFrom_shape (w : World) (es : List Event) :
    ∃ l, (runFrom w es).fetches = w.fetches ++ l := by
  induction es generalizing w with
  | nil => exact ⟨[], (List.append_nil _).symm⟩
  | cons e t ih =>
    obtain ⟨l1, h1⟩ := fetches_step_shape w e
    obtain ⟨l2, h2⟩ := ih (stepW w e)
    exact ⟨l1 ++ l2, by
      show (runFrom (stepW w e) t).fetches = _
      rw [h2, h1, List.append_assoc]⟩

theorem settled_runFrom_shape (w : World) (es : List Event) :
    ∃ l, (runFrom w es).settled = w.settled ++ l := by
  induction es generalizing w with
  | nil => exact ⟨[], (List.append_nil _).symm⟩
  | cons e t ih =>
    obtain ⟨l1, h1⟩ := settled_step_shape w e
    obtain ⟨l2, h2⟩ := ih (stepW w e)
    exact ⟨l1 ++ l2, by
      show (runFrom (stepW w e) t).settled = _
      rw [h2, h1, List.append_assoc]⟩

theorem mem_fetches_runFrom (w : World) (es : List Event) (f : Fetch)
    (hf : f ∈ w.fetches) : f ∈ (runFrom w es).fetches := by
  obtain ⟨l, hl⟩ := fetches_runFrom_shape w es
  rw [hl]
  exact List.mem_append_left _ hf

theorem mem_settled_runFrom (w : World) (es : List Event) (s : Nat × Outcome)
    (hs : s ∈ w.settled) : s ∈ (runFrom w es).settled := by
  obtain ⟨l, hl⟩ := settled_runFrom_shape w es
  rw [hl]
  exact List.mem_append_left _ hs

/-! ## Support lemmas for the specified properties -/

theorem lookupE_initA_of_ne (l : List (CKey × Entry)) (cn act : String) (k : CKey)
    (hk : k ≠ ⟨cn, act⟩) : lookupE (initA l cn act) k = lookupE l k := by
  rcases h : lookupE l ⟨cn, act⟩ with _ | e0
  · rw [initA_of_none _ _ _ h, lookupE_setE, if_neg (fun hh => hk hh.symm)]
  · rw [initA_of_some _ _ _ _ h]

theorem lookupE_initA_self (l : List (CKey × Entry)) (cn act : String) :
    lookupE (initA l cn act) ⟨cn, act⟩ ≠ none := by
  rcases h : lookupE l ⟨cn, act⟩ with _ | e0
  · rw [initA_of_none _ _ _ h, lookupE_setE, if_pos rfl]
    simp
  · rw [initA_of_some _ _ _ _ h, h]
    simp

/-- A busy entry makes the call a complete no-op apart from the line
189-194 initialisation, which is itself a no-op when the action slot
already exists. -/
theorem rcasr_fixpoint (w : World) (cn act opts : String) (p : Nat)
    (hia : lookupE w.cachedResults ⟨cn, act⟩ ≠ none)
    (hl : lookupE w.cachedResults ⟨cn, opts⟩ = some ⟨true, some p⟩) :
    returnCacheAndStartRefetch w cn act opts = (w, some p) := by
  have h0 : initA w.cachedResults cn act = w.cachedResults := by
    rcases h : lookupE w.cachedResults ⟨cn, act⟩ with _ | e0
    · exact absurd h hia
    · exact initA_of_some _ _ _ _ h
  have hbusy := rcasr_busy w cn act opts ⟨true, some p⟩ (by rw [h0]; exact hl) rfl
  rw [hbusy, h0]

/-- `n` consecutive calls of `returnCacheAndStartRefetch` with the same
arguments and no intervening settlement, collecting the returned values. -/
def callRepeat (w : World) (cn act opts : String) : Nat → World × List (Option Nat)
  | 0 => (w, [])
  | Nat.succ j =>
    let s := returnCacheAndStartRefetch w cn act opts
    let r := callRepeat s.1 cn act opts j
    (r.1, s.2 :: r.2)

theorem callRepeat_busy (w : World) (cn act opts : String) (p : Nat) (n : Nat)
    (hia : lookupE w.cachedResults ⟨cn, act⟩ ≠ none)
    (hl : lookupE w.cachedResults ⟨cn, opts⟩ = some ⟨true, some p⟩) :
    callRepeat w cn act opts n = (w, List.replicate n (some p)) := by
  induction n with
  | zero => rfl
  | succ j ih =>
    simp only [callRepeat, rcasr_fixpoint w cn act opts p hia hl, ih,
      List.replicate_succ]

theorem foldl_applyCont_rejected (err : Nat) (l : List (CKey × Entry))
    (cs : List Callback) :
    cs.foldl (applyCont (Outcome.rejected err)) l = l := by
  induction cs generalizing l with
  | nil => rfl
  | cons c t ih => exact ih l

/-- A rejected settlement never touches the cache: both `then` callbacks
have no rejection handler. -/
theorem settleW_rejected_cache (w : World) (p err : Nat) :
    (settleW w p (Outcome.rejected err)).cachedResults = w.cachedResults := by
  simp [settleW, foldl_applyCont_rejected]

theorem filter_fresh_cont (cs : List Callback) (c : Callback) (n : Nat)
    (hlt : ∀ d ∈ cs, pid d < n) (hp : pid c = n) :
    (cs ++ [c]).filter (fun d => pid d == n) = [c] := by
  rw [List.filter_append]
  have h1 : cs.filter (fun d => pid d == n) = [] := by
    rw [List.filter_eq_nil_iff]
    intro d hd
    have := hlt d hd
    simp only [beq_iff_eq]
    omega
  rw [h1]
  simp [hp]

theorem foldl_applyCont_lookup_ne (o : Outcome) (l : List (CKey × Entry))
    (cs : List Callback) (k : CKey) (h : ∀ c ∈ cs, ckey c ≠ k) :
    lookupE (cs.foldl (applyCont o) l) k = lookupE l k := by
  induction cs generalizing l with
  | nil => rfl
  | cons c t ih =>
    rw [List.foldl_cons, ih _ (fun d hd => h d (List.mem_cons_of_mem _ hd))]
    have hck : ckey c ≠ k := h c (List.mem_cons_self _ _)
    rcases o with v | e2
    · cases c with
      | refetchDone k1 p1 =>
        simp only [applyCont]
        rw [lookupE_modifyE, if_neg (show k1 ≠ k from hck)]
      | coldDone k1 p1 =>
        simp only [applyCont]
        rw [lookupE_modifyE, if_neg (show k1 ≠ k from hck)]
    · rfl

theorem nodup_fst_eq (l : List (Nat × Outcome)) (hnd : (l.map Prod.fst).Nodup)
    (a : Nat) (b c : Outcome) (hb : (a, b) ∈ l) (hc : (a, c) ∈ l) : b = c := by
  have h := List.inj_on_of_nodup_map hnd hb hc rfl
  exact congrArg Prod.snd h

/-- Once an entry is stuck with `isFetching` set and no callback watches its
key, no later event can change the entry, issue a fetch for its key, or
create a callback for its key. -/
theorem wedge_preserved (w : World) (k : CKey) (e : Entry) (es : List Event)
    (hl : lookupE w.cachedResults k = some e)
    (hf : e.isFetching = true)
    (hnc : ∀ c ∈ w.conts, ckey c ≠ k) :
    lookupE (runFrom w es).cachedResults k = some e ∧
    (∀ c ∈ (runFrom w es).conts, ckey c ≠ k) ∧
    (runFrom w es).fetches.filter (fun f => decide (fkey f = k)) =
      w.fetches.filter (fun f => decide (fkey f = k)) := by
  induction es generalizing w with
  | nil => exact ⟨hl, hnc, rfl⟩
  | cons ev t ih =>
    have hstep : lookupE (stepW w ev).cachedResults k = some e ∧
        (∀ c ∈ (stepW w ev).conts, ckey c ≠ k) ∧
        (stepW w ev).fetches.filter (fun f => decide (fkey f = k)) =
          w.fetches.filter (fun f => decide (fkey f = k)) := by
      cases ev with
      | call cn2 act2 opts2 =>
        have hl0 : lookupE (initA w.cachedResults cn2 act2) k = some e :=
          lookupE_initA_of_some _ _ _ _ _ hl
        show lookupE (returnCacheAndStartRefetch w cn2 act2 opts2).1.cachedResults k
              = some e ∧
            (∀ c ∈ (returnCacheAndStartRefetch w cn2 act2 opts2).1.conts, ckey c ≠ k) ∧
            (returnCacheAndStartRefetch w cn2 act2 opts2).1.fetches.filter
                (fun f => decide (fkey f = k)) =
              w.fetches.filter (fun f => decide (fkey f = k))
        rcases h2 : lookupE (initA w.cachedResults cn2 act2) ⟨cn2, opts2⟩ with _ | e2
        · have hkne : (⟨cn2, opts2⟩ : CKey) ≠ k := by
            intro hh
            rw [hh, hl0] at h2
            cases h2
          rw [rcasr_cold w cn2 act2 opts2 h2]
          refine ⟨?_, ?_, ?_⟩
          · rw [lookupE_setE, if_neg hkne]
            exact hl0
          · intro c hc
            rcases List.mem_append.mp hc with h3 | h3
            · exact hnc c h3
            · simp only [List.mem_singleton] at h3
              subst h3
              exact hkne
          · rw [List.filter_append]
            have : List.filter (fun f => decide (fkey f = k))
                [⟨w.nextId, cn2, act2, opts2, FetchKind.cold⟩] = [] := by
              simp [fkey, hkne]
            rw [this, List.append_nil]
        · rcases hf2 : e2.isFetching with _ | _
          · have hkne : (⟨cn2, opts2⟩ : CKey) ≠ k := by
              intro hh
              rw [hh, hl0] at h2
              cases h2
              rw [hf] at hf2
              cases hf2
            rw [rcasr_stale w cn2 act2 opts2 e2 h2 hf2]
            refine ⟨?_, ?_, ?_⟩
            · rw [lookupE_setE, if_neg hkne]
              exact hl0
            · intro c hc
              rcases List.mem_append.mp hc with h3 | h3
              · exact hnc c h3
              · simp only [List.mem_singleton] at h3
                subst h3
                exact hkne
            · rw [List.filter_append]
              have : List.filter (fun f => decide (fkey f = k))
                  [⟨w.nextId, cn2, act2, opts2, FetchKind.refetch⟩] = [] := by
                simp [fkey, hkne]
              rw [this, List.append_nil]
          · rw [rcasr_busy w cn2 act2 opts2 e2 h2 hf2]
            exact ⟨hl0, hnc, rfl⟩
      | settle p2 o2 =>
        refine ⟨?_, ?_, rfl⟩
        · show lookupE ((w.conts.filter (fun c => pid c == p2)).foldl
              (applyCont o2) w.cachedResults) k = some e
          rw [foldl_applyCont_lookup_ne o2 w.cachedResults _ k]
          · exact hl
          · intro c hc
            exact hnc c (List.mem_filter.mp hc).1
        · intro c hc
          exact hnc c (List.mem_filter.mp hc).1
    obtain ⟨h1, h2, h3⟩ := hstep
    obtain ⟨g1, g2, g3⟩ := ih (stepW w ev) h1 h2
    refine ⟨g1, g2, ?_⟩
    show (runFrom (stepW w ev) t).fetches.filter (fun f => decide (fkey f = k)) = _
    rw [g3, h3]

/-! ## The specified properties -/

/-- Claim C3: for every key whose cache entry has `isFetching` true, a
further call to `returnCacheAndStartRefetch` returns the existing stored
promise and issues no new fetch (the state is unchanged apart from the
line 189-194 initialisation, which never touches real entries); and for
`1 + n` consecutive calls with the same never-before-seen key made before
the first fetch settles, exactly one cold fetch is issued and every call
returns the same promise, so all callers resolve to the same value. -/
theorem c3_dedup_single_fetch :
    (∀ (w : World) (cn act opts : String) (e : Entry),
      lookupE w.cachedResults ⟨cn, opts⟩ = some e → e.isFetching = true →
        returnCacheAndStartRefetch w cn act opts =
          ({ w with cachedResults := initA w.cachedResults cn act }, e.promise)) ∧
    (∀ (w : World) (cn act opts : String) (n : Nat),
      lookupE w.cachedResults ⟨cn, opts⟩ = none → opts ≠ act →
        (returnCacheAndStartRefetch w cn act opts).2 = some w.nextId ∧
        (returnCacheAndStartRefetch w cn act opts).1.fetches =
          w.fetches ++ [⟨w.nextId, cn, act, opts, FetchKind.cold⟩] ∧
        callRepeat (returnCacheAndStartRefetch w cn act opts).1 cn act opts n =
          ((returnCacheAndStartRefetch w cn act opts).1,
            List.replicate n (some w.nextId))) := by
  constructor
  · intro w cn act opts e hl hf
    exact rcasr_busy w cn act opts e (lookupE_initA_of_some _ _ _ _ _ hl) hf
  · intro w cn act opts n hl hne
    have hkne : (⟨cn, opts⟩ : CKey) ≠ ⟨cn, act⟩ := by
      intro h
      cases h
      exact hne rfl
    have hl0 : lookupE (initA w.cachedResults cn act) ⟨cn, opts⟩ = none := by
      rw [lookupE_initA_of_ne _ _ _ _ hkne]
      exact hl
    have hcold := rcasr_cold w cn act opts hl0
    refine ⟨by rw [hcold], by rw [hcold], ?_⟩
    rw [hcold]
    apply callRepeat_busy
    · show lookupE (setE (initA w.cachedResults cn act) ⟨cn, opts⟩
          ⟨true, some w.nextId⟩) ⟨cn, act⟩ ≠ none
      rw [lookupE_setE, if_neg hkne]
      exact lookupE_initA_self _ _ _
    · show lookupE (setE (initA w.cachedResults cn act) ⟨cn, opts⟩
          ⟨true, some w.nextId⟩) ⟨cn, opts⟩ = some ⟨true, some w.nextId⟩
      rw [lookupE_setE, if_pos rfl]

theorem c3_dedup_single_fetch_witness :
    (lookupE (runFrom initW [Event.call "postsPublic" "browse" "optsA"]).cachedResults
        ⟨"postsPublic", "optsA"⟩ = some ⟨true, some 0⟩) ∧
    returnCacheAndStartRefetch (runFrom initW [Event.call "postsPublic" "browse" "optsA"])
        "postsPublic" "browse" "optsA" =
      ({ runFrom initW [Event.call "postsPublic" "browse" "optsA"] with
          cachedResults := initA (runFrom initW
            [Event.call "postsPublic" "browse" "optsA"]).cachedResults
            "postsPublic" "browse" }, some 0) ∧
    (lookupE initW.cachedResults ⟨"postsPublic", "optsA"⟩ = none) ∧
    callRepeat (returnCacheAndStartRefetch initW "postsPublic" "browse" "optsA").1
        "postsPublic" "browse" "optsA" 3 =
      ((returnCacheAndStartRefetch initW "postsPublic" "browse" "optsA").1,
        List.replicate 3 (some 0)) :=
  ⟨by decide,
   c3_dedup_single_fetch.1 (runFrom initW [Event.call "postsPublic" "browse" "optsA"])
     "postsPublic" "browse" "optsA" ⟨true, some 0⟩ (by decide) rfl,
   by decide,
   (c3_dedup_single_fetch.2 initW "postsPublic" "browse" "optsA" 3 (by decide)
     (by decide)).2.2⟩

/-- Claim C7: in every reachable state, at most one fetch is in flight
(issued but not settled) per effective cache key, and a further request for
a key whose entry has `isFetching` true returns the existing `promise`
field and does not start another fetch. -/
theorem c7_one_inflight_per_key (es : List Event)
    (hwf : wfFrom initW es = true) :
    (∀ f1 ∈ (runFrom initW es).fetches, ∀ f2 ∈ (runFrom initW es).fetches,
      notSettledL (runFrom initW es).settled f1.id →
      notSettledL (runFrom initW es).settled f2.id →
      fkey f1 = fkey f2 → f1 = f2) ∧
    (∀ (cn act opts : String) (e : Entry),
      lookupE (runFrom initW es).cachedResults ⟨cn, opts⟩ = some e →
      e.isFetching = true →
      (returnCacheAndStartRefetch (runFrom initW es) cn act opts).2 = e.promise ∧
      (returnCacheAndStartRefetch (runFrom initW es) cn act opts).1.fetches =
        (runFrom initW es).fetches) := by
  have hInv := winv_reachable es hwf
  constructor
  · intro f1 hf1 f2 hf2 hns1 hns2 hkey
    obtain ⟨c1, hc1, hcp1⟩ := hInv.inflightCont f1 hf1 hns1
    obtain ⟨c2, hc2, hcp2⟩ := hInv.inflightCont f2 hf2 hns2
    obtain ⟨f1', hf1', hid1, hk1, -⟩ := hInv.contFetch c1 hc1
    obtain ⟨f2', hf2', hid2, hk2, -⟩ := hInv.contFetch c2 hc2
    have he1 : f1' = f1 := fetch_id_inj _ hInv f1' f1 hf1' hf1 (by rw [hid1, hcp1])
    have he2 : f2' = f2 := fetch_id_inj _ hInv f2' f2 hf2' hf2 (by rw [hid2, hcp2])
    have hck : ckey c1 = ckey c2 := by
      rw [← hk1, ← hk2, he1, he2, hkey]
    have hc12 : c1 = c2 := cont_key_inj _ hInv c1 c2 hc1 hc2 hck
    apply fetch_id_inj _ hInv f1 f2 hf1 hf2
    rw [← hcp1, ← hcp2, hc12]
  · intro cn act opts e hl hf
    have h := rcasr_busy (runFrom initW es) cn act opts e
      (lookupE_initA_of_some _ _ _ _ _ hl) hf
    rw [h]
    exact ⟨rfl, rfl⟩

theorem c7_one_inflight_per_key_witness :
    wfFrom initW [Event.call "postsPublic" "browse" "optsA"] = true ∧
    (returnCacheAndStartRefetch (runFrom initW [Event.call "postsPublic" "browse" "optsA"])
        "postsPublic" "browse" "optsA").2 = some 0 ∧
    (returnCacheAndStartRefetch (runFrom initW [Event.call "postsPublic" "browse" "optsA"])
        "postsPublic" "browse" "optsA").1.fetches =
      (runFrom initW [Event.call "postsPublic" "browse" "optsA"]).fetches := by
  refine ⟨by decide, ?_⟩
  have h := (c7_one_inflight_per_key [Event.call "postsPublic" "browse" "optsA"]
    (by decide)).2 "postsPublic" "browse" "optsA" ⟨true, some 0⟩ (by decide) rfl
  exact ⟨h.1, h.2⟩

/-- Claim C1 as stated is false: when the background refresh promise
settles by *rejection*, lines 203-206 (a `then` with no rejection handler)
run nothing, so the entry keeps the old promise and `isFetching` stays
true.  Concretely: a cold fetch for a key fulfils, a second call starts
refresh fetch 1 and returns stale promise 0, fetch 1 settles rejected —
the entry is still `isFetching = true` with promise 0. -/
theorem c1_counterexample :
    wfFrom initW
      [Event.call "postsPublic" "browse" "optsA",
       Event.settle 0 (Outcome.fulfilled 5),
       Event.call "postsPublic" "browse" "optsA",
       Event.settle 1 (Outcome.rejected 7)] = true ∧
    (1, Outcome.rejected 7) ∈ (runFrom initW
      [Event.call "postsPublic" "browse" "optsA",
       Event.settle 0 (Outcome.fulfilled 5),
       Event.call "postsPublic" "browse" "optsA",
       Event.settle 1 (Outcome.rejected 7)]).settled ∧
    (⟨1, "postsPublic", "browse", "optsA", FetchKind.refetch⟩ : Fetch) ∈ (runFrom initW
      [Event.call "postsPublic" "browse" "optsA",
       Event.settle 0 (Outcome.fulfilled 5),
       Event.call "postsPublic" "browse" "optsA",
       Event.settle 1 (Outcome.rejected 7)]).fetches ∧
    lookupE (runFrom initW
      [Event.call "postsPublic" "browse" "optsA",
       Event.settle 0 (Outcome.fulfilled 5),
       Event.call "postsPublic" "browse" "optsA",
       Event.settle 1 (Outcome.rejected 7)]).cachedResults
      ⟨"postsPublic", "optsA"⟩ = some ⟨true, some 0⟩ := by
  decide

/-- Claim C1, amended: when an entry exists with `isFetching` false, the
call sets `isFetching`, starts one new refresh fetch, and returns the
previously stored stale promise (never the new fetch, whose id is fresh);
when the new fetch *fulfils*, the entry is overwritten with the new promise
and `isFetching` is cleared, but when the new fetch *rejects*, neither
happens — the entry keeps the stale promise with `isFetching` still set. -/
theorem c1_refetch_semantics (w : World) (cn act opts : String) (e : Entry)
    (v err : Nat) (hInv : WInv w)
    (hl : lookupE w.cachedResults ⟨cn, opts⟩ = some e)
    (hf : e.isFetching = false) :
    (returnCacheAndStartRefetch w cn act opts).2 = e.promise ∧
    (∀ q, e.promise = some q → q ≠ w.nextId) ∧
    lookupE (returnCacheAndStartRefetch w cn act opts).1.cachedResults
      ⟨cn, opts⟩ = some ⟨true, e.promise⟩ ∧
    (returnCacheAndStartRefetch w cn act opts).1.fetches =
      w.fetches ++ [⟨w.nextId, cn, act, opts, FetchKind.refetch⟩] ∧
    lookupE (settleW (returnCacheAndStartRefetch w cn act opts).1 w.nextId
        (Outcome.fulfilled v)).cachedResults ⟨cn, opts⟩ =
      some ⟨false, some w.nextId⟩ ∧
    lookupE (settleW (returnCacheAndStartRefetch w cn act opts).1 w.nextId
        (Outcome.rejected err)).cachedResults ⟨cn, opts⟩ =
      some ⟨true, e.promise⟩ := by
  have hl0 := lookupE_initA_of_some w.cachedResults cn act ⟨cn, opts⟩ e hl
  have hstale := rcasr_stale w cn act opts e hl0 hf
  have hlook1 : lookupE (returnCacheAndStartRefetch w cn act opts).1.cachedResults
      ⟨cn, opts⟩ = some ⟨true, e.promise⟩ := by
    rw [hstale]
    show lookupE (setE (initA w.cachedResults cn act) ⟨cn, opts⟩
      ⟨true, e.promise⟩) ⟨cn, opts⟩ = _
    rw [lookupE_setE, if_pos rfl]
  have hfilter : (returnCacheAndStartRefetch w cn act opts).1.conts.filter
      (fun d => pid d == w.nextId) = [Callback.refetchDone ⟨cn, opts⟩ w.nextId] := by
    rw [hstale]
    exact filter_fresh_cont w.conts _ w.nextId
      (fun d hd => cont_pid_lt w hInv d hd) rfl
  refine ⟨by rw [hstale], ?_, hlook1, by rw [hstale], ?_, ?_⟩
  · intro q hq
    have hmem : (⟨cn, opts⟩, e) ∈ w.cachedResults := lookupE_mem _ _ _ hl
    obtain ⟨hqlt, -⟩ := hInv.stored ⟨⟨cn, opts⟩, e⟩ hmem q (by simp [hq])
    omega
  · rw [settleW_one_cont _ _ _ _ hfilter]
    show lookupE (applyCont (Outcome.fulfilled v)
      (returnCacheAndStartRefetch w cn act opts).1.cachedResults
      (Callback.refetchDone ⟨cn, opts⟩ w.nextId)) ⟨cn, opts⟩ = _
    simp only [applyCont]
    rw [lookupE_modifyE, if_pos rfl, hlook1]
    rfl
  · rw [settleW_one_cont _ _ _ _ hfilter]
    show lookupE (applyCont (Outcome.rejected err)
      (returnCacheAndStartRefetch w cn act opts).1.cachedResults
      (Callback.refetchDone ⟨cn, opts⟩ w.nextId)) ⟨cn, opts⟩ = _
    simp only [applyCont]
    exact hlook1

theorem c1_refetch_semantics_witness :
    (lookupE (runFrom initW
        [Event.call "postsPublic" "browse" "optsA",
         Event.settle 0 (Outcome.fulfilled 5)]).cachedResults
      ⟨"postsPublic", "optsA"⟩ = some ⟨false, some 0⟩) ∧
    (returnCacheAndStartRefetch (runFrom initW
        [Event.call "postsPublic" "browse" "optsA",
         Event.settle 0 (Outcome.fulfilled 5)])
      "postsPublic" "browse" "optsA").2 = some 0 ∧
    lookupE (settleW (returnCacheAndStartRefetch (runFrom initW
        [Event.call "postsPublic" "browse" "optsA",
         Event.settle 0 (Outcome.fulfilled 5)])
        "postsPublic" "browse" "optsA").1 1
        (Outcome.rejected 7)).cachedResults ⟨"postsPublic", "optsA"⟩ =
      some ⟨true, some 0⟩ := by
  have h := c1_refetch_semantics (runFrom initW
      [Event.call "postsPublic" "browse" "optsA",
       Event.settle 0 (Outcome.fulfilled 5)])
    "postsPublic" "browse" "optsA" ⟨false, some 0⟩ 9 7
    (winv_reachable [Event.call "postsPublic" "browse" "optsA",
       Event.settle 0 (Outcome.fulfilled 5)] (by decide))
    (by decide) rfl
  exact ⟨by decide, h.1, h.2.2.2.2.2⟩

/-- Claim C8 as stated is false in its last conjunct: after a cold fetch
*rejects*, lines 217-219 (a `then` with no rejection handler) never clear
`isFetching`, so the flag is not cleared "when the fetch settles" but only
when it fulfils.  Concretely: the first-ever fetch for a key rejects and
the entry still has `isFetching = true`. -/
theorem c8_counterexample :
    wfFrom initW
      [Event.call "postsPublic" "browse" "optsA",
       Event.settle 0 (Outcome.rejected 7)] = true ∧
    (0, Outcome.rejected 7) ∈ (runFrom initW
      [Event.call "postsPublic" "browse" "optsA",
       Event.settle 0 (Outcome.rejected 7)]).settled ∧
    lookupE (runFrom initW
      [Event.call "postsPublic" "browse" "optsA",
       Event.settle 0 (Outcome.rejected 7)]).cachedResults
      ⟨"postsPublic", "optsA"⟩ = some ⟨true, some 0⟩ := by
  decide

/-- Claim C8, amended: for a never-before-seen key the call creates an
entry with `isFetching = true`, issues exactly one cold fetch, stores its
promise in the entry immediately (before settlement) and returns that same
promise; `isFetching` is cleared when the fetch *fulfils*, but if the fetch
rejects the flag stays set (and the stored promise is unchanged). -/
theorem c8_cold_semantics (w : World) (cn act opts : String) (v err : Nat)
    (hInv : WInv w)
    (hl : lookupE w.cachedResults ⟨cn, opts⟩ = none)
    (hne : opts ≠ act) :
    (returnCacheAndStartRefetch w cn act opts).2 = some w.nextId ∧
    lookupE (returnCacheAndStartRefetch w cn act opts).1.cachedResults
      ⟨cn, opts⟩ = some ⟨true, some w.nextId⟩ ∧
    (returnCacheAndStartRefetch w cn act opts).1.fetches =
      w.fetches ++ [⟨w.nextId, cn, act, opts, FetchKind.cold⟩] ∧
    lookupE (settleW (returnCacheAndStartRefetch w cn act opts).1 w.nextId
        (Outcome.fulfilled v)).cachedResults ⟨cn, opts⟩ =
      some ⟨false, some w.nextId⟩ ∧
    lookupE (settleW (returnCacheAndStartRefetch w cn act opts).1 w.nextId
        (Outcome.rejected err)).cachedResults ⟨cn, opts⟩ =
      some ⟨true, some w.nextId⟩ := by
  have hkne : (⟨cn, opts⟩ : CKey) ≠ ⟨cn, act⟩ := by
    intro h
    cases h
    exact hne rfl
  have hl0 : lookupE (initA w.cachedResults cn act) ⟨cn, opts⟩ = none := by
    rw [lookupE_initA_of_ne _ _ _ _ hkne]
    exact hl
  have hcold := rcasr_cold w cn act opts hl0
  have hlook1 : lookupE (returnCacheAndStartRefetch w cn act opts).1.cachedResults
      ⟨cn, opts⟩ = some ⟨true, some w.nextId⟩ := by
    rw [hcold]
    show lookupE (setE (initA w.cachedResults cn act) ⟨cn, opts⟩
      ⟨true, some w.nextId⟩) ⟨cn, opts⟩ = _
    rw [lookupE_setE, if_pos rfl]
  have hfilter : (returnCacheAndStartRefetch w cn act opts).1.conts.filter
      (fun d => pid d == w.nextId) = [Callback.coldDone ⟨cn, opts⟩ w.nextId] := by
    rw [hcold]
    exact filter_fresh_cont w.conts _ w.nextId
      (fun d hd => cont_pid_lt w hInv d hd) rfl
  refine ⟨by rw [hcold], hlook1, by rw [hcold], ?_, ?_⟩
  · rw [settleW_one_cont _ _ _ _ hfilter]
    show lookupE (applyCont (Outcome.fulfilled v)
      (returnCacheAndStartRefetch w cn act opts).1.cachedResults
      (Callback.coldDone ⟨cn, opts⟩ w.nextId)) ⟨cn, opts⟩ = _
    simp only [applyCont]
    rw [lookupE_modifyE, if_pos rfl, hlook1]
    rfl
  · rw [settleW_one_cont _ _ _ _ hfilter]
    show lookupE (applyCont (Outcome.rejected err)
      (returnCacheAndStartRefetch w cn act opts).1.cachedResults
      (Callback.coldDone ⟨cn, opts⟩ w.nextId)) ⟨cn, opts⟩ = _
    simp only [applyCont]
    exact hlook1

theorem c8_cold_semantics_witness :
    (lookupE initW.cachedResults ⟨"postsPublic", "optsA"⟩ = none) ∧
    ("optsA" ≠ "browse") ∧
    (returnCacheAndStartRefetch initW "postsPublic" "browse" "optsA").2 = some 0 ∧
    lookupE (settleW (returnCacheAndStartRefetch initW
        "postsPublic" "browse" "optsA").1 0
        (Outcome.fulfilled 5)).cachedResults ⟨"postsPublic", "optsA"⟩ =
      some ⟨false, some 0⟩ := by
  have h := c8_cold_semantics initW "postsPublic" "browse" "optsA" 5 7
    winv_initW rfl (by decide)
  exact ⟨rfl, by decide, h.1, h.2.2.2.1⟩

/-- Claim C4 as stated is false: it quantifies over a refresh fetch that
"settles (fulfills or rejects)", but after a *rejected* refresh the next
call still returns the old promise (the entry was never updated).
Concretely: promise 0 resolved, refresh fetch 1 rejected, and the next
call returns promise 0 rather than anything derived from fetch 1. -/
theorem c4_counterexample :
    wfFrom initW
      [Event.call "postsPublic" "browse" "optsA",
       Event.settle 0 (Outcome.fulfilled 5),
       Event.call "postsPublic" "browse" "optsA",
       Event.settle 1 (Outcome.rejected 7)] = true ∧
    (1, Outcome.rejected 7) ∈ (runFrom initW
      [Event.call "postsPublic" "browse" "optsA",
       Event.settle 0 (Outcome.fulfilled 5),
       Event.call "postsPublic" "browse" "optsA",
       Event.settle 1 (Outcome.rejected 7)]).settled ∧
    (returnCacheAndStartRefetch (runFrom initW
      [Event.call "postsPublic" "browse" "optsA",
       Event.settle 0 (Outcome.fulfilled 5),
       Event.call "postsPublic" "browse" "optsA",
       Event.settle 1 (Outcome.rejected 7)])
      "postsPublic" "browse" "optsA").2 = some 0 ∧
    some 0 ≠ some 1 := by
  decide

/-- Claim C4, amended: for a key with an existing entry (`isFetching`
false), the refresh started by a call leaves the stored promise unchanged
until the new fetch settles; if the refresh *fulfils*, the entry is updated
and the next call returns the refreshed promise; if the refresh *rejects*,
the entry keeps the old promise forever and the next call returns the old
promise.  The promise field is thus replaced only after (and only on)
fulfilment, never before settlement. -/
theorem c4_refresh_visibility (w : World) (cn act opts : String) (e : Entry)
    (v err : Nat) (hInv : WInv w)
    (hl : lookupE w.cachedResults ⟨cn, opts⟩ = some e)
    (hf : e.isFetching = false) :
    lookupE (returnCacheAndStartRefetch w cn act opts).1.cachedResults
      ⟨cn, opts⟩ = some ⟨true, e.promise⟩ ∧
    (returnCacheAndStartRefetch (settleW
        (returnCacheAndStartRefetch w cn act opts).1 w.nextId
        (Outcome.fulfilled v)) cn act opts).2 = some w.nextId ∧
    (returnCacheAndStartRefetch (settleW
        (returnCacheAndStartRefetch w cn act opts).1 w.nextId
        (Outcome.rejected err)) cn act opts).2 = e.promise := by
  have hl0 := lookupE_initA_of_some w.cachedResults cn act ⟨cn, opts⟩ e hl
  have hstale := rcasr_stale w cn act opts e hl0 hf
  have hlook1 : lookupE (returnCacheAndStartRefetch w cn act opts).1.cachedResults
      ⟨cn, opts⟩ = some ⟨true, e.promise⟩ := by
    rw [hstale]
    show lookupE (setE (initA w.cachedResults cn act) ⟨cn, opts⟩
      ⟨true, e.promise⟩) ⟨cn, opts⟩ = _
    rw [lookupE_setE, if_pos rfl]
  have hfilter : (returnCacheAndStartRefetch w cn act opts).1.conts.filter
      (fun d => pid d == w.nextId) = [Callback.refetchDone ⟨cn, opts⟩ w.nextId] := by
    rw [hstale]
    exact filter_fresh_cont w.conts _ w.nextId
      (fun d hd => cont_pid_lt w hInv d hd) rfl
  have hful : lookupE (settleW (returnCacheAndStartRefetch w cn act opts).1
      w.nextId (Outcome.fulfilled v)).cachedResults ⟨cn, opts⟩ =
      some ⟨false, some w.nextId⟩ := by
    rw [settleW_one_cont _ _ _ _ hfilter]
    show lookupE (applyCont (Outcome.fulfilled v)
      (returnCacheAndStartRefetch w cn act opts).1.cachedResults
      (Callback.refetchDone ⟨cn, opts⟩ w.nextId)) ⟨cn, opts⟩ = _
    simp only [applyCont]
    rw [lookupE_modifyE, if_pos rfl, hlook1]
    rfl
  have hrej : lookupE (settleW (returnCacheAndStartRefetch w cn act opts).1
      w.nextId (Outcome.rejected err)).cachedResults ⟨cn, opts⟩ =
      some ⟨true, e.promise⟩ := by
    rw [settleW_one_cont _ _ _ _ hfilter]
    show lookupE (applyCont (Outcome.rejected err)
      (returnCacheAndStartRefetch w cn act opts).1.cachedResults
      (Callback.refetchDone ⟨cn, opts⟩ w.nextId)) ⟨cn, opts⟩ = _
    simp only [applyCont]
    exact hlook1
  refine ⟨hlook1, ?_, ?_⟩
  · rw [rcasr_stale _ cn act opts ⟨false, some w.nextId⟩
      (lookupE_initA_of_some _ cn act _ _ hful) rfl]
  · rw [rcasr_busy _ cn act opts ⟨true, e.promise⟩
      (lookupE_initA_of_some _ cn act _ _ hrej) rfl]

theorem c4_refresh_visibility_witness :
    (lookupE (runFrom initW
        [Event.call "postsPublic" "browse" "optsA",
         Event.settle 0 (Outcome.fulfilled 5)]).cachedResults
      ⟨"postsPublic", "optsA"⟩ = some ⟨false, some 0⟩) ∧
    (returnCacheAndStartRefetch (settleW
        (returnCacheAndStartRefetch (runFrom initW
          [Event.call "postsPublic" "browse" "optsA",
           Event.settle 0 (Outcome.fulfilled 5)])
          "postsPublic" "browse" "optsA").1 1
        (Outcome.fulfilled 6)) "postsPublic" "browse" "optsA").2 = some 1 := by
  have h := c4_refresh_visibility (runFrom initW
      [Event.call "postsPublic" "browse" "optsA",
       Event.settle 0 (Outcome.fulfilled 5)])
    "postsPublic" "browse" "optsA" ⟨false, some 0⟩ 6 7
    (winv_reachable [Event.call "postsPublic" "browse" "optsA",
       Event.settle 0 (Outcome.fulfilled 5)] (by decide))
    (by decide) rfl
  exact ⟨by decide, h.2.1⟩

/-- Claim C5 as stated is false: after the cold fetch for a key rejects,
the next call does NOT issue a new fetch — `isFetching` was never cleared,
so the call takes the line 199-208 branch, issues nothing, and returns the
same (rejected) stored promise. -/
theorem c5_counterexample :
    wfFrom initW
      [Event.call "postsPublic" "browse" "optsA",
       Event.settle 0 (Outcome.rejected 7)] = true ∧
    (0, Outcome.rejected 7) ∈ (runFrom initW
      [Event.call "postsPublic" "browse" "optsA",
       Event.settle 0 (Outcome.rejected 7)]).settled ∧
    (returnCacheAndStartRefetch (runFrom initW
      [Event.call "postsPublic" "browse" "optsA",
       Event.settle 0 (Outcome.rejected 7)])
      "postsPublic" "browse" "optsA").1.fetches =
      (runFrom initW
        [Event.call "postsPublic" "browse" "optsA",
         Event.settle 0 (Outcome.rejected 7)]).fetches ∧
    (returnCacheAndStartRefetch (runFrom initW
      [Event.call "postsPublic" "browse" "optsA",
       Event.settle 0 (Outcome.rejected 7)])
      "postsPublic" "browse" "optsA").2 = some 0 := by
  decide

/-- Claim C5, amended: a failed fetch is indeed not automatically retried,
but the next call does not re-trigger it either.  Once the in-flight fetch
for a key rejects, the entry is wedged: after any sequence of further
events no new fetch is ever issued for that key, the entry never changes,
and every later call for the key (with any action) just returns the stored
promise. -/
theorem c5_failure_no_retry (w : World) (cn opts : String) (e : Entry)
    (p err : Nat) (es : List Event) (c0 : Callback) (hInv : WInv w)
    (hl : lookupE w.cachedResults ⟨cn, opts⟩ = some e)
    (hf : e.isFetching = true)
    (hc0 : c0 ∈ w.conts) (hck : ckey c0 = ⟨cn, opts⟩) (hcp : pid c0 = p) :
    lookupE (runFrom (settleW w p (Outcome.rejected err)) es).cachedResults
      ⟨cn, opts⟩ = some e ∧
    (runFrom (settleW w p (Outcome.rejected err)) es).fetches.filter
        (fun f => decide (fkey f = ⟨cn, opts⟩)) =
      w.fetches.filter (fun f => decide (fkey f = ⟨cn, opts⟩)) ∧
    ∀ act2, (returnCacheAndStartRefetch
        (runFrom (settleW w p (Outcome.rejected err)) es) cn act2 opts).2 =
      e.promise := by
  have h1 : lookupE (settleW w p (Outcome.rejected err)).cachedResults
      ⟨cn, opts⟩ = some e := by
    rw [settleW_rejected_cache]
    exact hl
  have hnc' : ∀ c ∈ (settleW w p (Outcome.rejected err)).conts,
      ckey c ≠ ⟨cn, opts⟩ := by
    intro c hc hckc
    obtain ⟨hcw, hcp2⟩ := mem_filter_ne w.conts p c |>.mp hc
    exact hcp2 (by rw [cont_key_inj w hInv c c0 hcw hc0 (by rw [hckc, hck]), hcp])
  obtain ⟨g1, g2, g3⟩ := wedge_preserved (settleW w p (Outcome.rejected err))
    ⟨cn, opts⟩ e es h1 hf hnc'
  refine ⟨g1, g3, ?_⟩
  intro act2
  rw [rcasr_busy _ cn act2 opts e (lookupE_initA_of_some _ _ _ _ _ g1) hf]

theorem c5_failure_no_retry_witness :
    (lookupE (runFrom initW
        [Event.call "postsPublic" "browse" "optsA"]).cachedResults
      ⟨"postsPublic", "optsA"⟩ = some ⟨true, some 0⟩) ∧
    (Callback.coldDone ⟨"postsPublic", "optsA"⟩ 0 ∈
      (runFrom initW [Event.call "postsPublic" "browse" "optsA"]).conts) ∧
    lookupE (runFrom (settleW
        (runFrom initW [Event.call "postsPublic" "browse" "optsA"]) 0
        (Outcome.rejected 7))
        [Event.call "postsPublic" "browse" "optsA"]).cachedResults
      ⟨"postsPublic", "optsA"⟩ = some ⟨true, some 0⟩ ∧
    (∀ act2, (returnCacheAndStartRefetch (runFrom (settleW
        (runFrom initW [Event.call "postsPublic" "browse" "optsA"]) 0
        (Outcome.rejected 7))
        [Event.call "postsPublic" "browse" "optsA"]) "postsPublic" act2
        "optsA").2 = some 0) := by
  have h := c5_failure_no_retry (runFrom initW
      [Event.call "postsPublic" "browse" "optsA"])
    "postsPublic" "optsA" ⟨true, some 0⟩ 0 7
    [Event.call "postsPublic" "browse" "optsA"]
    (Callback.coldDone ⟨"postsPublic", "optsA"⟩ 0)
    (winv_reachable [Event.call "postsPublic" "browse" "optsA"] (by decide))
    (by decide) rfl (by decide) rfl rfl
  exact ⟨by decide, by decide, h.1, h.2.2⟩

/-- Claim C6 as stated is false: a rejected promise can be handed to
callers that did not trigger the cold fetch.  Concretely: the cold fetch
for a key rejects; a later call issues no fetch at all (so it triggered
nothing) yet receives the same rejected promise 0. -/
theorem c6_counterexample :
    wfFrom initW
      [Event.call "postsPublic" "browse" "optsA",
       Event.settle 0 (Outcome.rejected 7)] = true ∧
    (returnCacheAndStartRefetch (runFrom initW
      [Event.call "postsPublic" "browse" "optsA",
       Event.settle 0 (Outcome.rejected 7)])
      "postsPublic" "browse" "optsA").2 = some 0 ∧
    (returnCacheAndStartRefetch (runFrom initW
      [Event.call "postsPublic" "browse" "optsA",
       Event.settle 0 (Outcome.rejected 7)])
      "postsPublic" "browse" "optsA").1.fetches.length = 1 ∧
    (0, Outcome.rejected 7) ∈ (runFrom initW
      [Event.call "postsPublic" "browse" "optsA",
       Event.settle 0 (Outcome.rejected 7)]).settled := by
  decide

/-- Claim C6, amended: a promise handed to a caller that ever rejects is
always the promise of a *cold* fetch (handed to its trigger, to
de-duplicated concurrent callers, or to later callers of the wedged
entry); a caller served from the stale branch (`isFetching` false)
receives a promise that has already fulfilled, so a background refresh
failure is never surfaced to any such caller. -/
theorem c6_rejection_only_cold (es1 es2 : List Event) (cn act opts : String)
    (r err : Nat)
    (hwf : wfFrom initW (es1 ++ Event.call cn act opts :: es2) = true)
    (hr : (returnCacheAndStartRefetch (runFrom initW es1) cn act opts).2 = some r)
    (hrej : (r, Outcome.rejected err) ∈
      (runFrom initW (es1 ++ Event.call cn act opts :: es2)).settled) :
    (∃ f ∈ (runFrom initW (es1 ++ Event.call cn act opts :: es2)).fetches,
      f.id = r ∧ f.kind = FetchKind.cold) ∧
    (∀ e, lookupE (runFrom initW es1).cachedResults ⟨cn, opts⟩ = some e →
      e.isFetching = false →
      ∀ q ∈ e.promise.toList, fulfilledL (runFrom initW es1).settled q) := by
  have hwf2 := hwf
  rw [wfFrom_append, Bool.and_eq_true] at hwf2
  have hInv1 := winv_reachable es1 hwf2.1
  have hInvAll := winv_reachable (es1 ++ Event.call cn act opts :: es2) hwf
  have hfinal : runFrom initW (es1 ++ Event.call cn act opts :: es2) =
      runFrom (stepW (runFrom initW es1) (Event.call cn act opts)) es2 := by
    rw [runFrom_append]
    rfl
  refine ⟨?_, ?_⟩
  · rcases h2 : lookupE (initA (runFrom initW es1).cachedResults cn act)
        ⟨cn, opts⟩ with _ | e2
    · -- the call itself issued a cold fetch and returned it
      rw [rcasr_cold _ cn act opts h2] at hr
      have hrr : (runFrom initW es1).nextId = r := by
        simpa using hr
      refine ⟨⟨(runFrom initW es1).nextId, cn, act, opts, FetchKind.cold⟩, ?_, hrr, rfl⟩
      rw [hfinal]
      apply mem_fetches_runFrom
      show _ ∈ (returnCacheAndStartRefetch (runFrom initW es1) cn act opts).1.fetches
      rw [rcasr_cold _ cn act opts h2]
      exact List.mem_append_right _ (by simp)
    · -- the call returned the stored promise of an existing entry
      have he2 : e2.promise = some r := by
        rcases hf2 : e2.isFetching with _ | _
        · rw [rcasr_stale _ cn act opts e2 h2 hf2] at hr
          exact hr
        · rw [rcasr_busy _ cn act opts e2 h2 hf2] at hr
          exact hr
      rcases h3 : lookupE (runFrom initW es1).cachedResults ⟨cn, opts⟩ with _ | e3
      · -- the entry would have to be the line 192-194 placeholder, whose
        -- promise field is undefined
        exfalso
        rcases h5 : lookupE (runFrom initW es1).cachedResults ⟨cn, act⟩ with _ | e0
        · rw [initA_of_none _ _ _ h5, lookupE_setE] at h2
          split at h2
          · cases h2
            simp at he2
          · rw [h3] at h2
            cases h2
        · rw [initA_of_some _ _ _ _ h5, h3] at h2
          cases h2
      · have he23 : e2 = e3 := by
          have := lookupE_initA_of_some (runFrom initW es1).cachedResults cn act
            ⟨cn, opts⟩ e3 h3
          rw [this] at h2
          cases h2
          rfl
        subst he23
        obtain ⟨hqlt, f, hfm, hfid, hdisj⟩ := hInv1.stored ⟨⟨cn, opts⟩, e2⟩
          (lookupE_mem _ _ _ h3) r (by simp [he2])
        rcases hdisj with hcold | hful
        · refine ⟨f, ?_, hfid, hcold⟩
          rw [hfinal]
          apply mem_fetches_runFrom
          obtain ⟨l, hl⟩ := fetches_step_shape (runFrom initW es1)
            (Event.call cn act opts)
          rw [hl]
          exact List.mem_append_left _ hfm
        · exfalso
          obtain ⟨s, hs, hs1, hs2⟩ := hful
          have hsfin : (r, s.2) ∈
              (runFrom initW (es1 ++ Event.call cn act opts :: es2)).settled := by
            rw [hfinal]
            have : s ∈ (runFrom (stepW (runFrom initW es1)
                (Event.call cn act opts)) es2).settled := by
              apply mem_settled_runFrom
              obtain ⟨l, hl⟩ := settled_step_shape (runFrom initW es1)
                (Event.call cn act opts)
              rw [hl]
              exact List.mem_append_left _ hs
            rw [← hs1]
            exact this
          have := nodup_fst_eq _ hInvAll.settledOnce r s.2 (Outcome.rejected err)
            hsfin hrej
          rw [this] at hs2
          simp [isFulfilled] at hs2
  · intro e hl hf q hq
    exact hInv1.stale ⟨⟨cn, opts⟩, e⟩ (lookupE_mem _ _ _ hl) hf q hq

theorem c6_rejection_only_cold_witness :
    wfFrom initW ([Event.call "postsPublic" "browse" "optsA",
        Event.settle 0 (Outcome.rejected 7)] ++
      Event.call "postsPublic" "browse" "optsA" :: []) = true ∧
    (returnCacheAndStartRefetch (runFrom initW
        [Event.call "postsPublic" "browse" "optsA",
         Event.settle 0 (Outcome.rejected 7)])
      "postsPublic" "browse" "optsA").2 = some 0 ∧
    (∃ f ∈ (runFrom initW ([Event.call "postsPublic" "browse" "optsA",
        Event.settle 0 (Outcome.rejected 7)] ++
      Event.call "postsPublic" "browse" "optsA" :: [])).fetches,
      f.id = 0 ∧ f.kind = FetchKind.cold) := by
  refine ⟨by decide, by decide, ?_⟩
  exact (c6_rejection_only_cold
    [Event.call "postsPublic" "browse" "optsA",
     Event.settle 0 (Outcome.rejected 7)] []
    "postsPublic" "browse" "optsA" 0 7 (by decide) (by decide) (by decide)).1

/-- Claim C2 is violated by the code (and the violation contradicts the
initialisation on lines 192-194, which prepares a per-action slot that the
lookup on line 197 then ignores): two calls with the same controller name
and serialized options but *different actions* share one cache entry.
After a browse call for `postsPublic` with options string "optsA" resolves,
a read call with the same options returns the browse call's promise 0 and
issues its read fetch only as a background refresh of the shared entry. -/
theorem c2_actions_share_entry :
    wfFrom initW
      [Event.call "postsPublic" "browse" "optsA",
       Event.settle 0 (Outcome.fulfilled 5)] = true ∧
    (runFrom initW
      [Event.call "postsPublic" "browse" "optsA",
       Event.settle 0 (Outcome.fulfilled 5)]).fetches =
      [⟨0, "postsPublic", "browse", "optsA", FetchKind.cold⟩] ∧
    (returnCacheAndStartRefetch (runFrom initW
      [Event.call "postsPublic" "browse" "optsA",
       Event.settle 0 (Outcome.fulfilled 5)])
      "postsPublic" "read" "optsA").2 = some 0 ∧
    (returnCacheAndStartRefetch (runFrom initW
      [Event.call "postsPublic" "browse" "optsA",
       Event.settle 0 (Outcome.fulfilled 5)])
      "postsPublic" "read" "optsA").1.fetches =
      [⟨0, "postsPublic", "browse", "optsA", FetchKind.cold⟩,
       ⟨1, "postsPublic", "read", "optsA", FetchKind.refetch⟩] := by
  decide

/-! ## The exported `get` helper (lines 11-24 and 110-182) -/

/-- Lines 11-24: the table of valid resource names and their controller
aliases. -/
def RESOURCES (resource : String) : Option String :=
  if resource = "posts" then some "postsPublic"
  else if resource = "tags" then some "tagsPublic"
  else if resource = "pages" then some "pagesPublic"
  else if resource = "authors" then some "authorsPublic"
  else none

/-- The `options.hash` object passed to the helper, after `parseOptions`:
only the truthiness of `id` and `slug` (used by `isBrowse`, lines 39-47)
and the serialized form `JSON.stringify(apiOptions)` (line 196) matter to
the embedded code. -/
structure ApiOptions where
  id : Bool
  slug : Bool
  serialized : String
deriving DecidableEq

/-- Lines 39-47: a Browse request unless an `id` or `slug` option is
given. -/
def isBrowse (options : ApiOptions) : Bool :=
  if options.id || options.slug then false else true

/-- Settlement of a single-step promise chain: a fulfilment carrying a
rendered value, or a rejection carrying an error. -/
inductive PRes (α : Type) where
  | fulfilled (v : α)
  | rejected (e : Nat)
deriving DecidableEq

/-- `promise.then(onFulfilled)` where the handler returns a plain value. -/
def pThen {α β : Type} : PRes α → (α → β) → PRes β
  | PRes.fulfilled v, f => PRes.fulfilled (f v)
  | PRes.rejected e, _ => PRes.rejected e

/-- `promise.catch(onRejected)` where the handler returns a plain value. -/
def pCatch {α : Type} : PRes α → (Nat → α) → PRes α
  | PRes.fulfilled v, _ => PRes.fulfilled v
  | PRes.rejected e, h => PRes.fulfilled (h e)

/-- The outcome of the promise returned by `returnCacheAndStartRefetch`. -/
def toPRes : Outcome → PRes Nat
  | Outcome.fulfilled v => PRes.fulfilled v
  | Outcome.rejected e => PRes.rejected e

/-- The collaborating template machinery, abstracted: `options.fn` applied
to a fetch result (lines 144-161), `options.inverse` applied with
`data.error` set to a message (lines 132 and 162-165), `err.message`
(line 164), and the translated invalid-resource warning (line 130). -/
structure GetTemplates where
  fnRender : Nat → String
  invRender : String → String
  errMessage : Nat → String
  invalidResourceMsg : String

/-- How the promise returned by `get` resolves. -/
inductive GetOutcome where
  | resolvedUndefined
  | resolvedRendered (s : String)
  | rejectedOutcome (e : Nat)
  | threwSync
deriving DecidableEq

/-- What the body of `get` does before any asynchrony: resolve early
(lines 123-133), or return the chain built on the promise produced by
`returnCacheAndStartRefetch` (line 143). -/
inductive GetStep where
  | early (o : GetOutcome)
  | viaFetch (r : Option Nat)
deriving DecidableEq

/-- Lines 110-143: the synchronous part of the exported helper
(`module.exports = function get(resource, options)`); named `getHelper`
here only because a bare `get` collides with a name exported by the
ambient library.  `hasFn` is the truthiness of `options.fn`.  The
`.finally` logging block (lines 166-181) passes the settled value through
unchanged and is omitted. -/
def getHelper (w : World) (t : GetTemplates) (hasFn : Bool) (resource : String)
    (apiOptions : ApiOptions) : World × GetStep :=
  if hasFn = false then
    (w, GetStep.early GetOutcome.resolvedUndefined)
  else
    match RESOURCES resource with
    | none =>
      (w, GetStep.early (GetOutcome.resolvedRendered
        (t.invRender t.invalidResourceMsg)))
    | some controllerName =>
      let action := if isBrowse apiOptions then "browse" else "read"
      let s := returnCacheAndStartRefetch w controllerName action
        apiOptions.serialized
      (s.1, GetStep.viaFetch s.2)

/-- Lines 143-165: `.then(success).catch(error)` applied to the outcome of
the promise returned by `returnCacheAndStartRefetch`; the `success`
handler renders the block, the `error` handler logs, stores `err.message`
in `data.error` and renders the inverse block. -/
def getChain (t : GetTemplates) (o : Outcome) : GetOutcome :=
  match pCatch (pThen (toPRes o) t.fnRender)
      (fun e => t.invRender (t.errMessage e)) with
  | PRes.fulfilled s => GetOutcome.resolvedRendered s
  | PRes.rejected e => GetOutcome.rejectedOutcome e

/-- The final resolution of the helper, given the outcome of each promise.
`returnCacheAndStartRefetch` returning `undefined` (line 208 on an entry
with no `promise` field) would make line 143 throw synchronously. -/
def getResolution (t : GetTemplates) (step : GetStep)
    (outcomeOf : Nat → Outcome) : GetOutcome :=
  match step with
  | GetStep.early g => g
  | GetStep.viaFetch none => GetOutcome.threwSync
  | GetStep.viaFetch (some p) => getChain t (outcomeOf p)

theorem rcasr_returns_some (w : World) (cn act opts : String)
    (hne : opts ≠ act)
    (hcache : ∀ e : Entry, lookupE w.cachedResults ⟨cn, opts⟩ = some e →
      e.promise ≠ none) :
    ∃ p, (returnCacheAndStartRefetch w cn act opts).2 = some p := by
  have hkne : (⟨cn, opts⟩ : CKey) ≠ ⟨cn, act⟩ := by
    intro h
    cases h
    exact hne rfl
  rcases h2 : lookupE (initA w.cachedResults cn act) ⟨cn, opts⟩ with _ | e2
  · exact ⟨w.nextId, by rw [rcasr_cold _ _ _ _ h2]⟩
  · have h3 : lookupE w.cachedResults ⟨cn, opts⟩ = some e2 := by
      rw [← lookupE_initA_of_ne w.cachedResults cn act _ hkne]
      exact h2
    have h4 := hcache e2 h3
    rcases hq : e2.promise with _ | q
    · exact absurd hq h4
    · rcases hf2 : e2.isFetching with _ | _
      · refine ⟨q, ?_⟩
        rw [rcasr_stale _ _ _ _ e2 h2 hf2]
        exact hq
      · refine ⟨q, ?_⟩
        rw [rcasr_busy _ _ _ _ e2 h2 hf2]
        exact hq

/-- Claim C9: the promise returned by the exported `get` helper never
rejects.  The early exits resolve directly; on the main path the
`.catch(error)` handler (lines 162-165) converts any rejection — in
particular a failing API fetch — into a resolution with the rendered
inverse block, the error message stored in `data.error`.  The hypotheses
exclude a cache poisoned at a key colliding with an action name, which no
run of the helper itself can produce: real serialized options are JSON
object strings, never the strings "browse" or "read". -/
theorem c9_never_rejects (w : World) (t : GetTemplates) (hasFn : Bool)
    (resource : String) (apiOptions : ApiOptions) (outcomeOf : Nat → Outcome)
    (hs1 : apiOptions.serialized ≠ "browse")
    (hs2 : apiOptions.serialized ≠ "read")
    (hcache : ∀ (cn : String) (e : Entry),
      lookupE w.cachedResults ⟨cn, apiOptions.serialized⟩ = some e →
      e.promise ≠ none) :
    (∀ err, getResolution t (getHelper w t hasFn resource apiOptions).2 outcomeOf ≠
      GetOutcome.rejectedOutcome err) ∧
    getResolution t (getHelper w t hasFn resource apiOptions).2 outcomeOf ≠
      GetOutcome.threwSync ∧
    (∀ p err, (getHelper w t hasFn resource apiOptions).2 = GetStep.viaFetch (some p) →
      outcomeOf p = Outcome.rejected err →
      getResolution t (getHelper w t hasFn resource apiOptions).2 outcomeOf =
        GetOutcome.resolvedRendered (t.invRender (t.errMessage err))) := by
  rcases hasFn with _ | _
  · refine ⟨by simp [getHelper, getResolution], by simp [getHelper, getResolution], ?_⟩
    intro p err hstep
    simp [getHelper] at hstep
  · have hstep : (getHelper w t true resource apiOptions).2 =
        match RESOURCES resource with
        | none => GetStep.early (GetOutcome.resolvedRendered
            (t.invRender t.invalidResourceMsg))
        | some controllerName =>
            GetStep.viaFetch (returnCacheAndStartRefetch w controllerName
              (if isBrowse apiOptions then "browse" else "read")
              apiOptions.serialized).2 := by
      simp only [getHelper]
      rcases RESOURCES resource with _ | cn <;> rfl
    rcases hres : RESOURCES resource with _ | cn
    · rw [hres] at hstep
      refine ⟨?_, ?_, ?_⟩
      · intro err
        rw [hstep]
        simp [getResolution]
      · rw [hstep]
        simp [getResolution]
      · intro p err h1 h2
        rw [hstep] at h1
        cases h1
    · rw [hres] at hstep
      have hstep2 : (getHelper w t true resource apiOptions).2 =
          GetStep.viaFetch (returnCacheAndStartRefetch w cn
            (if isBrowse apiOptions then "browse" else "read")
            apiOptions.serialized).2 := hstep
      have hne : apiOptions.serialized ≠
          (if isBrowse apiOptions then "browse" else "read") := by
        rcases isBrowse apiOptions with _ | _
        · simpa using hs2
        · simpa using hs1
      obtain ⟨p0, hp0⟩ := rcasr_returns_some w cn
        (if isBrowse apiOptions then "browse" else "read")
        apiOptions.serialized hne (hcache cn)
      rw [hp0] at hstep2
      have hchain : ∀ o : Outcome, (∀ err, getChain t o ≠
          GetOutcome.rejectedOutcome err) ∧ getChain t o ≠ GetOutcome.threwSync := by
        intro o
        rcases o with v | e <;> simp [getChain, toPRes, pThen, pCatch]
      refine ⟨?_, ?_, ?_⟩
      · intro err
        rw [hstep2]
        exact (hchain (outcomeOf p0)).1 err
      · rw [hstep2]
        exact (hchain (outcomeOf p0)).2
      · intro p err h1 h2
        rw [hstep2] at h1 ⊢
        cases h1
        show getChain t (outcomeOf p0) = _
        rw [h2]
        simp [getChain, toPRes, pThen, pCatch]

theorem c9_never_rejects_witness :
    ("optsA" ≠ "browse") ∧ ("optsA" ≠ "read") ∧
    (∀ err, getResolution ⟨fun v => String.append "ok" (toString v), fun s => s,
        fun e => String.append "err" (toString e), "invalid"⟩
      (getHelper initW ⟨fun v => String.append "ok" (toString v), fun s => s,
        fun e => String.append "err" (toString e), "invalid"⟩
        true "posts" ⟨false, false, "optsA"⟩).2
      (fun _ => Outcome.rejected 7) ≠ GetOutcome.rejectedOutcome err) ∧
    getResolution ⟨fun v => String.append "ok" (toString v), fun s => s,
        fun e => String.append "err" (toString e), "invalid"⟩
      (getHelper initW ⟨fun v => String.append "ok" (toString v), fun s => s,
        fun e => String.append "err" (toString e), "invalid"⟩
        true "posts" ⟨false, false, "optsA"⟩).2
      (fun _ => Outcome.rejected 7) = GetOutcome.resolvedRendered "err7" := by
  have h := c9_never_rejects initW ⟨fun v => String.append "ok" (toString v),
      fun s => s, fun e => String.append "err" (toString e), "invalid"⟩
    true "posts" ⟨false, false, "optsA"⟩ (fun _ => Outcome.rejected 7)
    (by decide) (by decide)
    (fun cn e hl => by simp [initW, lookupE] at hl)
  refine ⟨by decide, by decide, h.1, ?_⟩
  have h3 := h.2.2 0 7 rfl rfl
  exact h3

/-- Claim C10: called without a block function the helper resolves to
`undefined` (line 123-127), and called with a resource name outside the
`RESOURCES` table — anything other than posts, tags, pages, authors — it
resolves to the rendered inverse block (lines 129-133); in both cases the
returned state is the input state unchanged: no fetch is issued and the
cache is neither read nor modified. -/
theorem c10_early_exits (w : World) (t : GetTemplates) (resource : String)
    (apiOptions : ApiOptions) :
    getHelper w t false resource apiOptions =
      (w, GetStep.early GetOutcome.resolvedUndefined) ∧
    (RESOURCES resource = none →
      getHelper w t true resource apiOptions =
        (w, GetStep.early (GetOutcome.resolvedRendered
          (t.invRender t.invalidResourceMsg)))) ∧
    (RESOURCES resource = none ↔
      resource ≠ "posts" ∧ resource ≠ "tags" ∧
      resource ≠ "pages" ∧ resource ≠ "authors") := by
  refine ⟨rfl, ?_, ?_⟩
  · intro h
    show (if (true = false) then _ else _) = _
    rw [if_neg (by simp)]
    rw [h]
  · unfold RESOURCES
    split_ifs with h1 h2 h3 h4 <;> simp [*]

theorem c10_early_exits_witness :
    getHelper initW ⟨fun v => String.append "ok" (toString v), fun s => s,
        fun e => String.append "err" (toString e), "invalid"⟩
      false "posts" ⟨false, false, "optsA"⟩ =
      (initW, GetStep.early GetOutcome.resolvedUndefined) ∧
    RESOURCES "bogus" = none ∧
    getHelper initW ⟨fun v => String.append "ok" (toString v), fun s => s,
        fun e => String.append "err" (toString e), "invalid"⟩
      true "bogus" ⟨false, false, "optsA"⟩ =
      (initW, GetStep.early (GetOutcome.resolvedRendered "invalid")) := by
  refine ⟨?_, by decide, ?_⟩
  · exact (c10_early_exits initW ⟨fun v => String.append "ok" (toString v),
      fun s => s, fun e => String.append "err" (toString e), "invalid"⟩
      "posts" ⟨false, false, "optsA"⟩).1
  · exact (c10_early_exits initW ⟨fun v => String.append "ok" (toString v),
      fun s => s, fun e => String.append "err" (toString e), "invalid"⟩
      "bogus" ⟨false, false, "optsA"⟩).2.1 (by decide)
